import Mathlib

/-!
# Keypad / LCD access-control firmware (ATmega328) : `Code/main.c`

A shallow embedding of `main.c`.

* Bytes (`char`, `unsigned char`, `uint8_t`, the 8-bit I/O registers) are natural
  numbers; every place where C truncates to 8 bits carries an explicit `% 256`.
* Strings are the byte arrays C stores: the characters followed by the terminator 0.
* An array access outside its array is undefined in C; the functions that index an
  array return `Option`, with `none` standing for such an access.
* `pgm_read_byte(p)` reads program memory (flash) at the address `p`. The table `keys`
  and the literal `PSTR("Enter Code:")` are in program memory. The other string literals
  passed to `lcd_print` are in data memory, and `lcd_print` reads program memory at their
  addresses all the same; an `Image` gives the content of program memory and the
  addresses of these literals.
* The busy-wait delays (`_delay_ms`, `_delay_us`) change no state and are dropped.
* Every assignment to `PORTD` (the macro `ctrl`) is recorded, in order, in `lcdBus`,
  so that what reaches the display can be read back from the bus.
-/

namespace KeypadLcd

/-! ## Constants of the source -/

/-- LCD control pin `en` (bit of `PORTD`). -/
def en : Nat := 2
/-- LCD control pin `rw` (bit of `PORTD`). -/
def rw : Nat := 1
/-- LCD control pin `rs` (bit of `PORTD`). -/
def rs : Nat := 0
/-- Bit number of `PC0` in `PORTC`. -/
def PC0 : Nat := 0

/-- A C string literal: its characters, then the terminating 0. -/
def cstr (s : String) : List Nat := s.toList.map Char.toNat ++ [0]

/-- The table `const char keys[] PROGMEM = "123A456B789C*0#D";`. -/
def keys : List Nat := cstr "123A456B789C*0#D"

/-- The constant `const char fullGateCode[] = "1234";`. -/
def fullGateCode : List Nat := cstr "1234"

/-- The constant `const char halfGateCode[] = "4321";`. -/
def halfGateCode : List Nat := cstr "4321"

/-- The table `unsigned char firstCharAdr[] = {0x80, 0xC0, 0x94, 0xD4};` of `lcd_gotoxy`. -/
def firstCharAdr : List Nat := [0x80, 0xC0, 0x94, 0xD4]

/-- The C operator `~` followed by truncation to 8 bits. -/
def not8 (v : Nat) : Nat := 255 - v % 256

/-! ## Machine state -/

/-- The variables of `main` and the registers it writes. -/
structure State where
  /-- the variable `uint8_t position` -/
  position : Nat
  /-- the array `char inputCode[5]` -/
  inputCode : List Nat
  /-- register `PORTC` -/
  PORTC : Nat
  /-- register `PORTD` (`ctrl`) -/
  PORTD : Nat
  /-- every value assigned to `PORTD`, oldest first -/
  lcdBus : List Nat
deriving DecidableEq, Repr

/-- An assignment `ctrl = v;` (also the write half of `ctrl |= ..` and `ctrl &= ..`). -/
def ctrlWrite (v : Nat) (s : State) : State :=
  { s with PORTD := v % 256, lcdBus := s.lcdBus ++ [v % 256] }

/-! ## Display driver -/

/-- The function `void lcd_command(unsigned char cmd)`. -/
def lcd_command (cmd : Nat) (s : State) : State :=
  let s := ctrlWrite (cmd &&& 0xF0) s
  let s := ctrlWrite (s.PORTD &&& not8 (1 <<< rs)) s
  let s := ctrlWrite (s.PORTD &&& not8 (1 <<< rw)) s
  let s := ctrlWrite (s.PORTD ||| (1 <<< en)) s
  let s := ctrlWrite (s.PORTD &&& not8 (1 <<< en)) s
  let s := ctrlWrite (cmd <<< 4) s
  let s := ctrlWrite (s.PORTD &&& not8 (1 <<< rs)) s
  let s := ctrlWrite (s.PORTD &&& not8 (1 <<< rw)) s
  let s := ctrlWrite (s.PORTD ||| (1 <<< en)) s
  ctrlWrite (s.PORTD &&& not8 (1 <<< en)) s

/-- The function `void lcd_data(unsigned char data)`. -/
def lcd_data (data : Nat) (s : State) : State :=
  let s := ctrlWrite (data &&& 0xF0) s
  let s := ctrlWrite (s.PORTD ||| (1 <<< rs)) s
  let s := ctrlWrite (s.PORTD &&& not8 (1 <<< rw)) s
  let s := ctrlWrite (s.PORTD ||| (1 <<< en)) s
  let s := ctrlWrite (s.PORTD &&& not8 (1 <<< en)) s
  let s := ctrlWrite (data <<< 4) s
  let s := ctrlWrite (s.PORTD ||| (1 <<< rs)) s
  let s := ctrlWrite (s.PORTD &&& not8 (1 <<< rw)) s
  let s := ctrlWrite (s.PORTD ||| (1 <<< en)) s
  ctrlWrite (s.PORTD &&& not8 (1 <<< en)) s

/-- The function `void lcd_init(void)`. -/
def lcd_init (s : State) : State :=
  lcd_command 0x01 (lcd_command 0x0E (lcd_command 0x28 (lcd_command 0x02 s)))

/-- The function `void lcd_gotoxy(unsigned char x, unsigned char y)`: the index `y - 1` is computed
in `int`, so `y = 0` reads before the table and `y > 4` after it. -/
def lcd_gotoxy (x y : Nat) (s : State) : Option State :=
  if y = 0 then none
  else
    match firstCharAdr[y - 1]? with
    | none => none
    | some base => some (lcd_command ((base + x - 1) % 256) s)

/-- The memory image of the program, as far as `lcd_print` meets it. -/
structure Image where
  /-- the byte `pgm_read_byte` returns from each 16-bit address of program memory -/
  flash : Nat → Nat
  /-- the address in program memory of the literal `PSTR("Enter Code:")` (main.c line 44) -/
  enterCode : Nat
  /-- the address in data memory of the plain string literal on the given line of main.c -/
  literal : Nat → Nat
  /-- the literal of line 44, terminator included, lies inside the address space -/
  enterCode_fits : enterCode + 11 < 65536
  /-- program memory holds the literal of line 44, terminator included -/
  enterCode_holds : ∀ i, i < 12 → flash (enterCode + i) = (cstr "Enter Code:").getD i 0

/-- The loop `while ((c = pgm_read_byte(str++))) lcd_data(c);` of `lcd_print`: each byte is
read from program memory at the 16-bit pointer `str`, which then moves on by one. `fuel`
bounds the number of reads; `none` when no zero byte is met within it. -/
def lcd_print_loop (flash : Nat → Nat) : Nat → Nat → State → Option State
  | 0, _, _ => none
  | fuel + 1, str, s =>
    if flash str % 256 = 0 then some s
    else lcd_print_loop flash fuel ((str + 1) % 65536) (lcd_data (flash str % 256) s)

/-- The function `void lcd_print(const char *str)`. After 65536 reads the pointer has been
through every address, so a run that ends at all ends within 65536 reads: `none` stands
for a loop that never ends. -/
def lcd_print (img : Image) (str : Nat) (s : State) : Option State :=
  lcd_print_loop img.flash 65536 (str % 65536) s

/-! ## `strcmp` -/

/-- The library function `int strcmp(const char *a, const char *b)` on two arrays: zero exactly when the two
strings agree up to and including the terminator, otherwise the difference of the first
differing bytes; `none` when an array ends before the comparison is decided. -/
def strcmp : List Nat → List Nat → Option Int
  | [], _ => none
  | _, [] => none
  | x :: xs, y :: ys =>
    if x ≠ y then some ((x : Int) - (y : Int))
    else if x = 0 then some 0
    else strcmp xs ys

/-! ## Main loop -/

/-- The assignment `inputCode[i] = v;` for an index `i ≥ 0`: `none` past the end. -/
def setCell (i v : Nat) (buf : List Nat) : Option (List Nat) :=
  if i < buf.length then some (buf.set i v) else none

/-- The assignment `inputCode[position - 1] = v;`: the index is computed in `int`, so
`position = 0` gives the index -1, before the array. -/
def storeAt (position v : Nat) (buf : List Nat) : Option (List Nat) :=
  if position = 0 then none else setCell (position - 1) v buf

/-- The loop `for (uint8_t i = 0; i < 5; i++) inputCode[i] = 0;`. -/
def clearBuffer (buf : List Nat) : Option (List Nat) :=
  (List.range 5).foldlM (fun b i => setCell i 0 b) buf

/-- The body of `if (key != 0) { ... }` for the branch `key == 'D'`. The string literals
are passed to `lcd_print` as the data-memory addresses they have. -/
def submit (img : Image) (s : State) : Option State := do
  let buf ← storeAt s.position 0 s.inputCode
  let s := { s with inputCode := buf }
  let r ← strcmp s.inputCode fullGateCode
  let s ←
    if r = 0 then do
      let s ← lcd_gotoxy 1 2 s
      let s ← lcd_print img (img.literal 79) s
      let s ← lcd_gotoxy 1 2 s
      let s ← lcd_print img (img.literal 82) s
      pure { s with position := 1, PORTC := (s.PORTC ||| (1 <<< PC0)) % 256 }
    else do
      let r ← strcmp s.inputCode halfGateCode
      if r = 0 then do
        let s ← lcd_gotoxy 1 2 s
        let s ← lcd_print img (img.literal 89) s
        let s ← lcd_gotoxy 1 2 s
        let s ← lcd_print img (img.literal 92) s
        pure { s with position := 1, PORTC := (s.PORTC &&& not8 (1 <<< PC0)) % 256 }
      else do
        let s ← lcd_gotoxy 1 2 s
        let s ← lcd_print img (img.literal 99) s
        let s ← lcd_gotoxy 1 2 s
        let s ← lcd_print img (img.literal 102) s
        pure { s with position := 1 }
  let buf ← clearBuffer s.inputCode
  pure { s with inputCode := buf }

/-- One pass through the body of `while (1)` once `keypadScan` has returned `key`. -/
def processKey (img : Image) (key : Nat) (s : State) : Option State :=
  if key ≠ 0 then
    if key = Char.toNat 'A' ∧ s.position > 1 then do
      let s := { s with position := (s.position + 255) % 256 }
      let buf ← storeAt s.position 0 s.inputCode
      let s := { s with inputCode := buf }
      let s ← lcd_gotoxy s.position 2 s
      let s := lcd_data (Char.toNat ' ') s
      lcd_gotoxy s.position 2 s
    else if key = Char.toNat 'C' then do
      let s := { s with position := 1 }
      let buf ← clearBuffer s.inputCode
      let s := { s with inputCode := buf }
      let s ← lcd_gotoxy 1 2 s
      lcd_print img (img.literal 74) s
    else if key = Char.toNat 'D' then submit img s
    else if s.position ≤ 4 then do
      let buf ← storeAt s.position key s.inputCode
      let s := { s with inputCode := buf }
      let x := s.position
      let s := { s with position := (s.position + 1) % 256 }
      let s ← lcd_gotoxy x 2 s
      pure (lcd_data (key % 256) s)
    else some s
  else some s

/-- The keys of `ks` processed one per loop iteration, first to last. -/
def processKeys (img : Image) : List Nat → State → Option State
  | [], s => some s
  | k :: ks, s => (processKey img k s).bind (processKeys img ks)

/-- The variables of `main` on entry to `while (1)`: `position = 1`,
`inputCode = {0}`; the registers are whatever the initialisation left. -/
def initState (portc portd : Nat) (bus : List Nat) : State :=
  { position := 1, inputCode := [0, 0, 0, 0, 0], PORTC := portc, PORTD := portd, lcdBus := bus }

/-! ## Keypad scanner

The column lines are inputs: what `PINB` reads depends on the row that is strobed.
The keypad is therefore a function `pinb` from the value driven on `PORTB` to the
value read from `PINB`. -/

/-- The value of `uint8_t keyCode = (row * 4) + (col - 4);`. -/
def keyCode (row col : Nat) : Nat := (row * 4 + (col - 4)) % 256

/-- The value written by `keypadPORT_R = ~(1 << row);`. -/
def strobe (row : Nat) : Nat := not8 (1 <<< row)

/-- The loop `for (col ..; col < 8; col++)` of `keypadScan` with `n` columns left:
`some key` when it returns from the function, `none` when it runs to its end. -/
def scanCols (pin row : Nat) : Nat → Nat → Option Nat
  | 0, _ => none
  | n + 1, col =>
    if pin &&& (1 <<< col) = 0 then some (keys.getD (keyCode row col) 0)
    else scanCols pin row n (col + 1)

/-- The loop `for (row ..; row < 4; row++)` of `keypadScan` with `n` rows left; `out`
collects the values written to `PORTB`. -/
def scanRows (pinb : Nat → Nat) : Nat → Nat → List Nat → Nat × List Nat
  | 0, _, out => (0, out)
  | n + 1, row, out =>
    match scanCols (pinb (strobe row)) row 4 4 with
    | some key => (key, out ++ [strobe row])
    | none => scanRows pinb n (row + 1) (out ++ [strobe row])

/-- The function `char keypadScan()`: the character returned and the values written to `PORTB`. -/
def keypadScan (pinb : Nat → Nat) : Nat × List Nat := scanRows pinb 4 0 []

/-- One iteration of `while (1)`: scan, then act on the key. -/
def loopIteration (img : Image) (pinb : Nat → Nat) (s : State) : Option State :=
  processKey img (keypadScan pinb).1 s

/-! ## Observations used in the statements -/

/-- The key at row `r`, column `c` (both counted from 0) is pressed: with row `r`
strobed, column line `PB(4+c)` reads low. -/
def active (pinb : Nat → Nat) (r c : Nat) : Prop := pinb (strobe r) &&& (1 <<< (c + 4)) = 0

instance (pinb : Nat → Nat) (r c : Nat) : Decidable (active pinb r c) := by
  unfold active; infer_instance

/-- What the display latches from a sequence of bus writes: the bus value at each
falling edge of `en`, a write with `en` high directly followed by one with `en` low. -/
def latched : List Nat → List Nat
  | [] => []
  | a :: rest =>
    match rest with
    | [] => []
    | b :: _ => if a.testBit en = true ∧ b.testBit en = false then a :: latched rest else latched rest

/-- The latched values paired into bytes, high nibble first; each byte comes with the
level of `rs` (`false`: command, `true`: data). -/
def pairNibbles : List Nat → List (Bool × Nat)
  | hi :: lo :: rest => (hi.testBit rs, (hi &&& 0xF0) ||| (lo >>> 4)) :: pairNibbles rest
  | _ => []

/-- The bytes a sequence of bus writes transfers to the display. -/
def lcdTransfers (w : List Nat) : List (Bool × Nat) := pairNibbles (latched w)

/-- A command byte as it appears in `lcdTransfers`. -/
def cmdByte (b : Nat) : Bool × Nat := (false, b)

/-- A data byte as it appears in `lcdTransfers`. -/
def dataByte (b : Nat) : Bool × Nat := (true, b)

/-- The characters of a C string literal, without the terminator. -/
def chars (s : String) : List Nat := s.toList.map Char.toNat

/-- The string the submit branch passes to `strcmp`: the bytes of `inputCode` before the
first 0, once the cell under the cursor has been set to 0. -/
def enteredCode (s : State) : List Nat :=
  (s.inputCode.set (s.position - 1) 0).takeWhile (fun c => c ≠ 0)

/-- The ten bus writes of `lcd_command cmd`. -/
def commandWrites (cmd : Nat) : List Nat :=
  (lcd_command cmd { position := 0, inputCode := [], PORTC := 0, PORTD := 0, lcdBus := [] }).lcdBus

/-- The ten bus writes of `lcd_data data`. -/
def dataWrites (data : Nat) : List Nat :=
  (lcd_data data { position := 0, inputCode := [], PORTC := 0, PORTD := 0, lcdBus := [] }).lcdBus

/-- The last write of a sequence leaves `en` low. -/
def endsIdle (w : List Nat) : Prop := w.getLast?.map (fun a => a.testBit en) = some false

instance (w : List Nat) : Decidable (endsIdle w) := by
  unfold endsIdle; infer_instance

/-- The bus writes of `lcd_print` on the characters `cs`. -/
def printWrites : List Nat → List Nat
  | [] => []
  | c :: cs => dataWrites c ++ printWrites cs

/-- The state after the bus writes `w`: `PORTD` holds the last of them. -/
def afterWrites (w : List Nat) (s : State) : State :=
  { s with PORTD := w.getLast?.getD s.PORTD, lcdBus := s.lcdBus ++ w }

/-- The bus writes of the submit branch when `lcd_print` sends the text `shown` in its
first call and the text `cleared` in its second: cursor to (1, row 2), `shown`, cursor to
(1, row 2), `cleared`. -/
def statusWrites (shown cleared : List Nat) : List Nat :=
  commandWrites 0xC0 ++ (printWrites shown ++ (commandWrites 0xC0 ++ printWrites cleared))

/-- What the display receives in the submit branch around the status text `msg`: the
command placing the cursor at (column 1, row 2), the characters of `msg` as data, the
same command again, sixteen blanks as data. -/
def statusShown (msg : String) : List (Bool × Nat) :=
  cmdByte 0xC0 :: ((chars msg).map dataByte ++
    cmdByte 0xC0 :: (chars "                ").map dataByte)

/-- A state with the four characters "1234" entered. -/
def sample1234 : State :=
  { position := 5, inputCode := chars "1234" ++ [0], PORTC := 0, PORTD := 0, lcdBus := [] }

/-- A state with the two characters "12" entered. -/
def sample12 : State :=
  { position := 3, inputCode := chars "12" ++ [0, 0, 0], PORTC := 0, PORTD := 0, lcdBus := [] }

/-- A keypad with no key pressed: every column line reads high. -/
def padIdle : Nat → Nat := fun _ => 0xFF

/-- A keypad with only the key of row 1, column 2 pressed: `PB6` reads low while row 1
is strobed. -/
def padSix : Nat → Nat := fun portb => if portb = strobe 1 then 0xBF else 0xFF

/-- A keypad with the keys (row 1, column 2), (row 1, column 3) and (row 2, column 0)
pressed together. -/
def padMany : Nat → Nat := fun portb =>
  if portb = strobe 1 then 0x3F else if portb = strobe 2 then 0xEF else 0xFF

/-- The bus values written while `en` is high. -/
def pulses (w : List Nat) : List Nat := w.filter (fun v => v.testBit en)

/-- The levels of `en` over the ten writes that transfer one byte: low, raised once, low
again, raised a second time, low at the end. -/
def twoPulses : List Bool :=
  [false, false, false, true, false, false, false, false, true, false]

/-- The buffer invariant: cursor `p` in 1..5, five cells, the cells before the cursor
(cells 0..p-2) all non-null and the cells from the cursor on (cells p-1..4) all null. -/
def bufferInvariant (s : State) : Prop :=
  1 ≤ s.position ∧ s.position ≤ 5 ∧ s.inputCode.length = 5 ∧
  (∀ c ∈ s.inputCode.take (s.position - 1), c ≠ 0) ∧
  (∀ c ∈ s.inputCode.drop (s.position - 1), c = 0)

instance (s : State) : Decidable (bufferInvariant s) := by
  unfold bufferInvariant; infer_instance

/-- Successive iterations of `while (1)`, one per keypad state in the list. -/
def runLoop (img : Image) : List (Nat → Nat) → State → Option State
  | [], s => some s
  | pad :: pads, s => (loopIteration img pad s).bind (runLoop img pads)

/-- The values of the index expression in `inputCode[position - 1]` (computed in `int`)
that one pass of the loop body evaluates, following the branch the key selects: after
`position--` in the backspace branch, with `position` as it is in the submit and the
character-entry branches. -/
def cellIndices (key : Nat) (s : State) : List Int :=
  if key ≠ 0 then
    if key = Char.toNat 'A' ∧ s.position > 1 then [(((s.position + 255) % 256 : Nat) : Int) - 1]
    else if key = Char.toNat 'C' then []
    else if key = Char.toNat 'D' then [(s.position : Int) - 1]
    else if s.position ≤ 4 then [(s.position : Int) - 1]
    else []
  else []

/-- The arguments `(x, y)` of the calls of `lcd_gotoxy` that one pass of the loop body
makes, following the branch the key selects. -/
def gotoxyCalls (key : Nat) (s : State) : List (Nat × Nat) :=
  if key ≠ 0 then
    if key = Char.toNat 'A' ∧ s.position > 1 then
      [((s.position + 255) % 256, 2), ((s.position + 255) % 256, 2)]
    else if key = Char.toNat 'C' then [(1, 2)]
    else if key = Char.toNat 'D' then [(1, 2), (1, 2)]
    else if s.position ≤ 4 then [(s.position, 2)]
    else []
  else []

/-- The command `lcd_gotoxy x y` sends for the arguments `c = (x, y)`. -/
def gotoxyCommand (c : Nat × Nat) : Bool × Nat :=
  cmdByte ((firstCharAdr.getD (c.2 - 1) 0 + c.1 - 1) % 256)

/-- The start of `main` up to the loop: `lcd_init()`, `lcd_gotoxy(1, 1)`,
`lcd_print(PSTR("Enter Code:"))`, `PORTC &= ~(1 << PC0)`, and the initial values of
`position` and `inputCode` (nothing before the loop reads them); `portc` and `portd` are
the values of the registers at entry and the record of PORTD writes starts empty. The
writes to the direction registers and to PORTB have no part in the state. -/
def mainInit (img : Image) (portc portd : Nat) : Option State := do
  let s : State :=
    { position := 1, inputCode := [0, 0, 0, 0, 0], PORTC := portc, PORTD := portd, lcdBus := [] }
  let s := lcd_init s
  let s ← lcd_gotoxy 1 1 s
  let s ← lcd_print img img.enterCode s
  pure { s with PORTC := (s.PORTC &&& not8 (1 <<< PC0)) % 256 }

/-! ## The display as the bus drives it -/

/-- The display controller as the transfers drive it: its address counter and its
character cells. -/
structure Lcd where
  /-- the address counter -/
  addr : Nat
  /-- the character held at each address -/
  cell : Nat → Nat

/-- A display with every cell blank. -/
def lcdBlank : Lcd := { addr := 0, cell := fun _ => Char.toNat ' ' }

/-- One transfer acting on the display: a data byte is stored in the cell under the
address counter, which then moves on by one; the command 0x01 clears every cell; a command
with bit 7 set loads the address counter with its other seven bits; any other command
leaves cells and counter as they are. -/
def lcdStep (d : Lcd) (t : Bool × Nat) : Lcd :=
  if t.1 then { addr := d.addr + 1, cell := fun a => if a = d.addr then t.2 else d.cell a }
  else if t.2 = 0x01 then lcdBlank
  else if 0x80 ≤ t.2 then { d with addr := t.2 - 0x80 }
  else d

/-- The display after the bus writes `bus`, starting blank. -/
def display (bus : List Nat) : Lcd := (lcdTransfers bus).foldl lcdStep lcdBlank

/-- The non-null bytes the loop of `lcd_print` reads from program memory, from the pointer
`str` up to the first zero byte; `none` when no zero byte is met within `fuel` reads. -/
def readString (flash : Nat → Nat) : Nat → Nat → Option (List Nat)
  | 0, _ => none
  | fuel + 1, str =>
    if flash str % 256 = 0 then some []
    else (readString flash fuel ((str + 1) % 65536)).map (fun cs => flash str % 256 :: cs)

/-- The text `lcd_print` sends to the display when called with the pointer `str`: what
program memory holds from that address up to the first zero byte. -/
def textAt (img : Image) (str : Nat) : List Nat :=
  (readString img.flash 65536 (str % 65536)).getD []

/-- What the display receives in the submit branch from the two calls of `lcd_print` on
the lines `first` and `second` of main.c: the command placing the cursor at (column 1,
row 2), the text program memory holds at the address of the literal of line `first`, the
same command again, the text program memory holds at the address of the literal of line
`second`. -/
def statusSent (img : Image) (first second : Nat) : List (Bool × Nat) :=
  cmdByte 0xC0 :: ((textAt img (img.literal first)).map dataByte ++
    cmdByte 0xC0 :: (textAt img (img.literal second)).map dataByte)

/-- A sample image. Program memory holds "Enter Code:" at 0x0068 and zero bytes elsewhere;
data memory starts at 0x0100 and holds "    " (line 74) at 0x0100, "Code Accepted" (lines
79, 89) at 0x0105, the sixteen blanks (lines 82, 92, 102) at 0x0113 and "Incorrect Code"
(line 99) at 0x0124. -/
def sampleImage : Image where
  flash := fun a => if 0x68 ≤ a ∧ a < 0x74 then (cstr "Enter Code:").getD (a - 0x68) 0 else 0
  enterCode := 0x68
  literal := fun line =>
    if line = 74 then 0x100
    else if line = 79 ∨ line = 89 then 0x105
    else if line = 99 then 0x124
    else 0x113
  enterCode_fits := by decide
  enterCode_holds := by decide

/-- A keypad with only the key '1' (row 0, column 0) pressed. -/
def padOne : Nat → Nat := fun portb => if portb = strobe 0 then 0xEF else 0xFF

/-- A keypad with only the key 'C' (row 2, column 3) pressed. -/
def padC : Nat → Nat := fun portb => if portb = strobe 2 then 0x7F else 0xFF

/-- The loop `for (col ..; col < 8; col++)` of `keypadScan` once more, this time giving the
index `keyCode` with which it reads the table `keys` when it returns from the function;
`none` when it runs to its end without reading the table. -/
def scanColsCode (pin row : Nat) : Nat → Nat → Option Nat
  | 0, _ => none
  | n + 1, col =>
    if pin &&& (1 <<< col) = 0 then some (keyCode row col)
    else scanColsCode pin row n (col + 1)

/-- The loop `for (row ..; row < 4; row++)` of `keypadScan` once more: the index with which
the scan reads the table `keys`, `none` when it returns without reading it. -/
def scanRowsCode (pinb : Nat → Nat) : Nat → Nat → Option Nat
  | 0, _ => none
  | n + 1, row =>
    match scanColsCode (pinb (strobe row)) row 4 4 with
    | some code => some code
    | none => scanRowsCode pinb n (row + 1)

/-- The index with which `keypadScan` reads the table `keys`, if it reads it. -/
def keypadScanCode (pinb : Nat → Nat) : Option Nat := scanRowsCode pinb 4 0

/-! ## The display driver, seen from the bus -/

theorem lcd_command_eq (c : Nat) (s : State) :
    lcd_command c s = afterWrites (commandWrites c) s := by
  simp [lcd_command, commandWrites, ctrlWrite, afterWrites, List.append_assoc]

theorem lcd_data_eq (c : Nat) (s : State) :
    lcd_data c s = afterWrites (dataWrites c) s := by
  simp [lcd_data, dataWrites, ctrlWrite, afterWrites, List.append_assoc]

theorem afterWrites_afterWrites (w v : List Nat) (s : State) :
    afterWrites v (afterWrites w s) = afterWrites (w ++ v) s := by
  cases v with
  | nil => simp [afterWrites]
  | cons a v => simp [afterWrites, List.append_assoc, List.getLast?_cons, Option.or]

theorem afterWrites_nil (s : State) : afterWrites [] s = s := by
  simp [afterWrites]

theorem lcd_gotoxy_row2 (x : Nat) (s : State) :
    lcd_gotoxy x 2 s = some (afterWrites (commandWrites ((0xC0 + x - 1) % 256)) s) := by
  simp [lcd_gotoxy, firstCharAdr, lcd_command_eq]

theorem lcd_print_loop_eq (flash : Nat → Nat) (fuel str : Nat) (s : State) :
    lcd_print_loop flash fuel str s =
      (readString flash fuel str).map (fun cs => afterWrites (printWrites cs) s) := by
  induction fuel generalizing str s with
  | zero => rfl
  | succ fuel ih =>
    by_cases h : flash str % 256 = 0
    · rw [lcd_print_loop, readString, if_pos h, if_pos h]
      simp only [Option.map_some', printWrites, afterWrites_nil]
    · rw [lcd_print_loop, readString, if_neg h, if_neg h, ih, lcd_data_eq]
      cases readString flash fuel ((str + 1) % 65536) with
      | none => rfl
      | some cs =>
        simp only [Option.map_some', Option.map_map, Function.comp, afterWrites_afterWrites,
          printWrites]

theorem readString_total (flash : Nat → Nat) (z : Nat) (h0 : flash z % 256 = 0)
    (fuel str d : Nat) (hd : d < fuel) (hs : str < 65536) (hz : (str + d) % 65536 = z) :
    ∃ cs, readString flash fuel str = some cs := by
  induction fuel generalizing str d with
  | zero => omega
  | succ fuel ih =>
    rw [readString]
    split
    · exact ⟨[], rfl⟩
    · rename_i hne
      cases d with
      | zero =>
        have : str = z := by
          rw [Nat.add_zero, Nat.mod_eq_of_lt hs] at hz
          exact hz
        rw [this] at hne
        exact absurd h0 hne
      | succ d =>
        have hz' : ((str + 1) % 65536 + d) % 65536 = z := by
          rw [← hz]
          omega
        obtain ⟨cs, hcs⟩ := ih ((str + 1) % 65536) d (by omega) (Nat.mod_lt _ (by norm_num)) hz'
        exact ⟨_, by rw [hcs]; rfl⟩

theorem readString_at (img : Image) (str : Nat) :
    readString img.flash 65536 (str % 65536) = some (textAt img str) := by
  have h0 : img.flash (img.enterCode + 11) % 256 = 0 := by
    rw [img.enterCode_holds 11 (by norm_num)]
    decide
  have hfit := img.enterCode_fits
  obtain ⟨cs, hcs⟩ := readString_total img.flash (img.enterCode + 11) h0 65536 (str % 65536)
    ((img.enterCode + 11 + 65536 - str % 65536) % 65536) (Nat.mod_lt _ (by norm_num))
    (Nat.mod_lt _ (by norm_num)) (by omega)
  rw [textAt, hcs]
  rfl

theorem lcd_print_eq (img : Image) (str : Nat) (s : State) :
    lcd_print img str s = some (afterWrites (printWrites (textAt img str)) s) := by
  rw [lcd_print, lcd_print_loop_eq, readString_at]
  rfl

theorem readString_byte (flash : Nat → Nat) (fuel str : Nat) (cs : List Nat)
    (h : readString flash fuel str = some cs) : ∀ c ∈ cs, c < 256 := by
  induction fuel generalizing str cs with
  | zero => simp [readString] at h
  | succ fuel ih =>
    rw [readString] at h
    split at h
    · rw [← Option.some.inj h]
      simp
    · cases hr : readString flash fuel ((str + 1) % 65536) with
      | none => simp [hr] at h
      | some ds =>
        rw [hr] at h
        rw [← Option.some.inj h]
        intro c hc
        rcases List.mem_cons.1 hc with rfl | hc
        · exact Nat.mod_lt _ (by norm_num)
        · exact ih _ _ hr c hc

theorem textAt_byte (img : Image) (str : Nat) : ∀ c ∈ textAt img str, c < 256 :=
  readString_byte _ _ _ _ (readString_at img str)

theorem readString_prefix (flash : Nat → Nat) (cs : List Nat) (fuel str : Nat)
    (hfuel : cs.length < fuel) (hfit : str + cs.length < 65536)
    (hcs : ∀ i, i < cs.length → flash (str + i) % 256 = cs.getD i 0 ∧ cs.getD i 0 ≠ 0)
    (hend : flash (str + cs.length) % 256 = 0) :
    readString flash fuel str = some cs := by
  induction cs generalizing fuel str with
  | nil =>
    cases fuel with
    | zero => simp at hfuel
    | succ fuel => simp [readString, show flash str % 256 = 0 by simpa using hend]
  | cons c cs ih =>
    cases fuel with
    | zero => simp at hfuel
    | succ fuel =>
      have h0 := hcs 0 (by simp)
      simp only [Nat.add_zero, List.getD_cons_zero] at h0
      have hne : ¬ flash str % 256 = 0 := by
        rw [h0.1]
        exact h0.2
      have hlen : (c :: cs).length = cs.length + 1 := rfl
      have hm : (str + 1) % 65536 = str + 1 := by
        apply Nat.mod_eq_of_lt
        rw [hlen] at hfit
        omega
      have hrec := ih fuel (str + 1) (by rw [hlen] at hfuel; omega)
        (by rw [hlen] at hfit; omega)
        (by
          intro i hi
          have := hcs (i + 1) (by rw [hlen]; omega)
          rw [List.getD_cons_succ, ← Nat.add_assoc, Nat.add_right_comm] at this
          exact this)
        (by rw [hlen, ← Nat.add_assoc, Nat.add_right_comm] at hend; exact hend)
      rw [readString, if_neg hne, hm, hrec, h0.1]
      rfl

theorem textAt_enterCode (img : Image) : textAt img img.enterCode = chars "Enter Code:" := by
  have hfit := img.enterCode_fits
  have hm : img.enterCode % 65536 = img.enterCode := Nat.mod_eq_of_lt (by omega)
  have hl : (chars "Enter Code:").length = 11 := by decide
  have hr : readString img.flash 65536 img.enterCode = some (chars "Enter Code:") := by
    apply readString_prefix
    · rw [hl]; norm_num
    · rw [hl]; exact hfit
    · intro i hi
      rw [hl] at hi
      rw [img.enterCode_holds i (by omega)]
      interval_cases i <;> decide
    · rw [hl, img.enterCode_holds 11 (by norm_num)]
      decide
  rw [textAt, hm, hr]
  rfl

theorem textAt_sample (line : Nat) :
    textAt sampleImage (sampleImage.literal line) = [] := by
  have hrange : 0x100 ≤ sampleImage.literal line ∧ sampleImage.literal line ≤ 0x124 := by
    show 0x100 ≤ (if line = 74 then 0x100 else if line = 79 ∨ line = 89 then 0x105
      else if line = 99 then 0x124 else 0x113) ∧
      (if line = 74 then 0x100 else if line = 79 ∨ line = 89 then 0x105
      else if line = 99 then 0x124 else 0x113) ≤ 0x124
    split
    · decide
    · split
      · decide
      · split <;> decide
  generalize sampleImage.literal line = p at hrange
  have hm : p % 65536 = p := Nat.mod_eq_of_lt (by omega)
  have h0 : sampleImage.flash p % 256 = 0 := by
    show (if 0x68 ≤ p ∧ p < 0x74 then _ else 0) % 256 = 0
    rw [if_neg (by omega)]
  have hr : readString sampleImage.flash 65536 p = some [] :=
    readString_prefix _ [] _ _ (by simp) (by simp; omega) (by simp) (by simpa using h0)
  rw [textAt, hm, hr]
  rfl

theorem latched_cons_cons (a b : Nat) (r : List Nat) :
    latched (a :: b :: r) =
      if a.testBit en = true ∧ b.testBit en = false then a :: latched (b :: r)
      else latched (b :: r) := by
  simp [latched]

theorem latched_idle_cons (a : Nat) (r : List Nat) (ha : a.testBit en = false) :
    latched (a :: r) = latched r := by
  cases r with
  | nil => simp [latched]
  | cons b r => rw [latched_cons_cons]; simp [ha]

theorem latched_append (w rest : List Nat) (h : endsIdle w) :
    latched (w ++ rest) = latched w ++ latched rest := by
  unfold endsIdle at h
  obtain ⟨a, hlast, ha⟩ := Option.map_eq_some'.1 h
  obtain ⟨u, rfl⟩ := List.getLast?_eq_some_iff.1 hlast
  clear h hlast
  induction u with
  | nil => simpa [latched] using latched_idle_cons a rest ha
  | cons x u ih =>
    cases u with
    | nil =>
      simp only [List.nil_append, List.cons_append, latched_cons_cons, ha,
        latched_idle_cons a rest ha]
      split <;> simp [latched]
    | cons y u =>
      simp only [List.cons_append, latched_cons_cons x y] at ih ⊢
      rw [ih]
      split <;> simp

theorem pairNibbles_append (l r : List Nat) (h : l.length = 2) :
    pairNibbles (l ++ r) = pairNibbles l ++ pairNibbles r := by
  match l, h with
  | [hi, lo], _ => simp [pairNibbles]

set_option maxRecDepth 100000 in
theorem commandWrites_spec : ∀ c, c < 256 →
    lcdTransfers (commandWrites c) = [cmdByte c] ∧ (latched (commandWrites c)).length = 2 ∧
    endsIdle (commandWrites c) := by
  decide

set_option maxRecDepth 100000 in
theorem dataWrites_spec : ∀ c, c < 256 →
    lcdTransfers (dataWrites c) = [dataByte c] ∧ (latched (dataWrites c)).length = 2 ∧
    endsIdle (dataWrites c) := by
  decide

theorem lcdTransfers_command (c : Nat) (hc : c < 256) (rest : List Nat) :
    lcdTransfers (commandWrites c ++ rest) = cmdByte c :: lcdTransfers rest := by
  obtain ⟨h1, h2, h3⟩ := commandWrites_spec c hc
  unfold lcdTransfers at h1 ⊢
  rw [latched_append _ _ h3, pairNibbles_append _ _ h2, h1]
  rfl

theorem lcdTransfers_data (c : Nat) (hc : c < 256) (rest : List Nat) :
    lcdTransfers (dataWrites c ++ rest) = dataByte c :: lcdTransfers rest := by
  obtain ⟨h1, h2, h3⟩ := dataWrites_spec c hc
  unfold lcdTransfers at h1 ⊢
  rw [latched_append _ _ h3, pairNibbles_append _ _ h2, h1]
  rfl

theorem lcdTransfers_print (cs : List Nat) (hcs : ∀ c ∈ cs, c < 256) (rest : List Nat) :
    lcdTransfers (printWrites cs ++ rest) = cs.map dataByte ++ lcdTransfers rest := by
  induction cs with
  | nil => simp [printWrites]
  | cons c cs ih =>
    have hrest : ∀ d ∈ cs, d < 256 := fun d hd => hcs d (by simp [hd])
    simp [printWrites, List.append_assoc, lcdTransfers_data c (hcs c (by simp)), ih hrest]

/-! ## `strcmp` and the buffer -/

theorem strcmp_spec (a b : List Nat) (ha : 0 ∈ a) (hb : 0 ∈ b) :
    ∃ r, strcmp a b = some r ∧
      (r = 0 ↔ a.takeWhile (fun c => c ≠ 0) = b.takeWhile (fun c => c ≠ 0)) := by
  induction a generalizing b with
  | nil => simp at ha
  | cons x xs ih =>
    cases b with
    | nil => simp at hb
    | cons y ys =>
      by_cases hxy : x = y
      · subst hxy
        by_cases hx : x = 0
        · subst hx
          exact ⟨0, by simp [strcmp], by simp⟩
        · have hxs : 0 ∈ xs := by
            rcases List.mem_cons.1 ha with h | h
            · exact absurd h.symm hx
            · exact h
          have hys : 0 ∈ ys := by
            rcases List.mem_cons.1 hb with h | h
            · exact absurd h.symm hx
            · exact h
          obtain ⟨r, hr, hiff⟩ := ih ys hxs hys
          exact ⟨r, by simp [strcmp, hx, hr], by simp [List.takeWhile_cons, hx, hiff]⟩
      · refine ⟨(x : Int) - (y : Int), by simp [strcmp, hxy], ?_⟩
        have hne : (x : Int) - (y : Int) ≠ 0 := by omega
        simp only [hne, false_iff]
        by_cases hx : x = 0
        · have hy : y ≠ 0 := fun h => hxy (by omega)
          simp [List.takeWhile_cons, hx, hy]
        · by_cases hy : y = 0
          · simp [List.takeWhile_cons, hx, hy]
          · simp [List.takeWhile_cons, hx, hy, hxy]

theorem storeAt_eq (p v : Nat) (buf : List Nat) (h1 : 1 ≤ p) (h2 : p ≤ buf.length) :
    storeAt p v buf = some (buf.set (p - 1) v) := by
  have h0 : p ≠ 0 := by omega
  have h3 : p - 1 < buf.length := by omega
  simp [storeAt, setCell, h0, h3]

theorem clearBuffer_eq (buf : List Nat) (h : buf.length = 5) :
    clearBuffer buf = some [0, 0, 0, 0, 0] := by
  match buf, h with
  | [a, b, c, d, e], _ => simp [clearBuffer, setCell, List.range, List.range.loop]

theorem zero_mem_set (buf : List Nat) (i : Nat) (h : i < buf.length) : 0 ∈ buf.set i 0 := by
  exact List.mem_iff_getElem.2 ⟨i, by simpa using h, by simp⟩

/-! ## The submit branch -/

theorem afterWrites_fields (w : List Nat) (s : State) :
    (afterWrites w s).position = s.position ∧ (afterWrites w s).inputCode = s.inputCode ∧
    (afterWrites w s).PORTC = s.PORTC ∧ (afterWrites w s).lcdBus = s.lcdBus ++ w := by
  simp [afterWrites]

theorem submit_eq (img : Image) (s : State) (hlen : s.inputCode.length = 5)
    (hp1 : 1 ≤ s.position) (hp5 : s.position ≤ 5) :
    submit img s = some (
      if enteredCode s = chars "1234" then
        afterWrites (statusWrites (textAt img (img.literal 79)) (textAt img (img.literal 82)))
          { s with position := 1, inputCode := [0, 0, 0, 0, 0],
                   PORTC := (s.PORTC ||| (1 <<< PC0)) % 256 }
      else if enteredCode s = chars "4321" then
        afterWrites (statusWrites (textAt img (img.literal 89)) (textAt img (img.literal 92)))
          { s with position := 1, inputCode := [0, 0, 0, 0, 0],
                   PORTC := (s.PORTC &&& not8 (1 <<< PC0)) % 256 }
      else
        afterWrites (statusWrites (textAt img (img.literal 99)) (textAt img (img.literal 102)))
          { s with position := 1, inputCode := [0, 0, 0, 0, 0] }) := by
  have hst := storeAt_eq s.position 0 s.inputCode hp1 (by omega)
  have hz : 0 ∈ s.inputCode.set (s.position - 1) 0 := zero_mem_set _ _ (by omega)
  have hl : (s.inputCode.set (s.position - 1) 0).length = 5 := by simp [hlen]
  obtain ⟨r1, hr1, h1⟩ := strcmp_spec _ fullGateCode hz (by decide)
  obtain ⟨r2, hr2, h2⟩ := strcmp_spec _ halfGateCode hz (by decide)
  have hf : fullGateCode.takeWhile (fun c => c ≠ 0) = chars "1234" := by decide
  have hh : halfGateCode.takeWhile (fun c => c ≠ 0) = chars "4321" := by decide
  rw [hf] at h1
  rw [hh] at h2
  unfold submit
  have hc : clearBuffer (s.inputCode.set (s.position - 1) 0) = some [0, 0, 0, 0, 0] :=
    clearBuffer_eq _ hl
  have e1 : (r1 = 0) = (enteredCode s = chars "1234") := propext h1
  have e2 : (r2 = 0) = (enteredCode s = chars "4321") := propext h2
  simp only [hst, Option.bind_eq_bind, Option.some_bind, hr1, hr2, Option.pure_def,
    lcd_gotoxy_row2, lcd_print_eq, afterWrites_afterWrites, e1, e2]
  split
  · simp [afterWrites, hc, statusWrites]
  · split
    · simp [afterWrites, hc, statusWrites]
    · simp [afterWrites, hc, statusWrites]

/-! ## The branches of the key dispatch -/

theorem takeWhile_set_zero (l : List Nat) (i : Nat) (hi : i < l.length)
    (h : ∀ c ∈ l.take i, c ≠ 0) :
    (l.set i 0).takeWhile (fun c => c ≠ 0) = l.take i := by
  induction l generalizing i with
  | nil => simp at hi
  | cons x xs ih =>
    cases i with
    | zero => simp
    | succ j =>
      have hx : x ≠ 0 := h x (by simp)
      have hxs : ∀ c ∈ xs.take j, c ≠ 0 := fun c hc => h c (by simp [hc])
      have hj : j < xs.length := by simpa using hi
      simpa [List.takeWhile_cons, hx] using ih j hj hxs

theorem enteredCode_eq_take (s : State) (hp1 : 1 ≤ s.position)
    (hp : s.position ≤ s.inputCode.length)
    (h : ∀ c ∈ s.inputCode.take (s.position - 1), c ≠ 0) :
    enteredCode s = s.inputCode.take (s.position - 1) :=
  takeWhile_set_zero _ _ (by omega) h

theorem processKey_D (img : Image) (s : State) : processKey img (Char.toNat 'D') s = submit img s := by
  simp [processKey]

theorem processKey_C (img : Image) (s : State) (hlen : s.inputCode.length = 5) :
    processKey img (Char.toNat 'C') s =
      some (afterWrites (commandWrites 0xC0 ++ printWrites (textAt img (img.literal 74)))
        { s with position := 1, inputCode := [0, 0, 0, 0, 0] }) := by
  simp [processKey, clearBuffer_eq _ hlen, lcd_gotoxy_row2, lcd_print_eq,
    afterWrites_afterWrites]

theorem processKey_entry (img : Image) (k : Nat) (s : State) (hk0 : k ≠ 0)
    (hkA : k ≠ Char.toNat 'A' ∨ s.position = 1)
    (hkC : k ≠ Char.toNat 'C') (hkD : k ≠ Char.toNat 'D')
    (hlen : s.inputCode.length = 5) (hp1 : 1 ≤ s.position) (hp4 : s.position ≤ 4) :
    processKey img k s =
      some (afterWrites (commandWrites ((0xC0 + s.position - 1) % 256) ++ dataWrites (k % 256))
        { s with position := (s.position + 1) % 256,
                 inputCode := s.inputCode.set (s.position - 1) k }) := by
  have hA : ¬ (k = Char.toNat 'A' ∧ s.position > 1) := by
    rintro ⟨h1, h2⟩
    rcases hkA with h | h
    · exact h h1
    · omega
  have hst := storeAt_eq s.position k s.inputCode hp1 (by omega)
  simp only [processKey, hk0, hA, hkC, hkD, hp4, hst, ne_eq, not_false_eq_true, if_true,
    if_false, Option.bind_eq_bind, Option.some_bind, lcd_gotoxy_row2, Option.pure_def,
    lcd_data_eq, afterWrites_afterWrites]

theorem processKey_backspace (img : Image) (s : State) (hlen : s.inputCode.length = 5)
    (hp2 : 2 ≤ s.position) (hp5 : s.position ≤ 5) :
    processKey img (Char.toNat 'A') s =
      some (afterWrites
        (commandWrites ((0xC0 + (s.position - 1) - 1) % 256) ++
          (dataWrites (Char.toNat ' ') ++ commandWrites ((0xC0 + (s.position - 1) - 1) % 256)))
        { s with position := s.position - 1,
                 inputCode := s.inputCode.set (s.position - 2) 0 }) := by
  have hgt : s.position > 1 := by omega
  have hdec : (s.position + 255) % 256 = s.position - 1 := by omega
  have hst := storeAt_eq (s.position - 1) 0 s.inputCode (by omega) (by omega)
  have h2 : s.position - 1 - 1 = s.position - 2 := by omega
  simp only [processKey, hgt, hdec, hst, h2, ne_eq, and_self, if_true, Option.bind_eq_bind,
    Option.some_bind, lcd_gotoxy_row2, lcd_data_eq, afterWrites_afterWrites, afterWrites_fields]
  simp [afterWrites]

theorem processKey_full (img : Image) (k : Nat) (s : State) (hk0 : k ≠ 0) (hkA : k ≠ Char.toNat 'A')
    (hkC : k ≠ Char.toNat 'C') (hkD : k ≠ Char.toNat 'D') (hp : 4 < s.position) :
    processKey img k s = some s := by
  have h4 : ¬ s.position ≤ 4 := by omega
  simp only [processKey, hk0, hkA, hkC, hkD, h4, ne_eq, not_false_eq_true, if_true, if_false,
    false_and]

theorem processKey_null (img : Image) (s : State) : processKey img 0 s = some s := by
  simp [processKey]

theorem lcdTransfers_nil : lcdTransfers [] = [] := by
  simp [lcdTransfers, latched, pairNibbles]

theorem lcdTransfers_status (shown cleared : List Nat) (h1 : ∀ c ∈ shown, c < 256)
    (h2 : ∀ c ∈ cleared, c < 256) :
    lcdTransfers (statusWrites shown cleared) =
      cmdByte 0xC0 :: (shown.map dataByte ++ cmdByte 0xC0 :: cleared.map dataByte) := by
  have h := lcdTransfers_print cleared h2 []
  rw [List.append_nil, lcdTransfers_nil, List.append_nil] at h
  rw [statusWrites, lcdTransfers_command _ (by decide), lcdTransfers_print _ h1,
    lcdTransfers_command _ (by decide), h]

theorem testBit_set_PC0 (x : Nat) : ((x ||| (1 <<< PC0)) % 256).testBit PC0 = true := by
  have h : (256 : Nat) = 2 ^ 8 := by norm_num
  rw [h, Nat.testBit_mod_two_pow, Nat.testBit_or]
  simp [PC0]

theorem testBit_clear_PC0 (x : Nat) : ((x &&& not8 (1 <<< PC0)) % 256).testBit PC0 = false := by
  have h : (256 : Nat) = 2 ^ 8 := by norm_num
  have h2 : not8 (1 <<< PC0) = 254 := by decide
  rw [h, Nat.testBit_mod_two_pow, Nat.testBit_and, h2]
  simp [PC0]

/-! ## The keypad scanner -/

theorem scanCols_none (pin row : Nat) (n col : Nat)
    (h : ∀ i, i < n → pin &&& (1 <<< (col + i)) ≠ 0) : scanCols pin row n col = none := by
  induction n generalizing col with
  | zero => rfl
  | succ n ih =>
    have h0 : pin &&& (1 <<< col) ≠ 0 := by simpa using h 0 (by omega)
    have hn : ∀ i, i < n → pin &&& (1 <<< (col + 1 + i)) ≠ 0 := by
      intro i hi
      have := h (i + 1) (by omega)
      rwa [show col + (i + 1) = col + 1 + i by omega] at this
    simp [scanCols, h0, ih (col + 1) hn]

theorem scanCols_found (pin row : Nat) (n col j : Nat) (hj : j < n)
    (hlow : pin &&& (1 <<< (col + j)) = 0)
    (h : ∀ i, i < j → pin &&& (1 <<< (col + i)) ≠ 0) :
    scanCols pin row n col = some (keys.getD (keyCode row (col + j)) 0) := by
  induction n generalizing col j with
  | zero => omega
  | succ n ih =>
    cases j with
    | zero => simp [scanCols, show pin &&& (1 <<< col) = 0 by simpa using hlow]
    | succ j =>
      have h0 : pin &&& (1 <<< col) ≠ 0 := by simpa using h 0 (by omega)
      have hn : ∀ i, i < j → pin &&& (1 <<< (col + 1 + i)) ≠ 0 := by
        intro i hi
        have := h (i + 1) (by omega)
        rwa [show col + (i + 1) = col + 1 + i by omega] at this
      have hlow2 : pin &&& (1 <<< (col + 1 + j)) = 0 := by
        rwa [show col + (j + 1) = col + 1 + j by omega] at hlow
      have := ih (col + 1) j (by omega) hlow2 hn
      rw [show col + 1 + j = col + (j + 1) by omega] at this
      simp [scanCols, h0, this]

theorem scanRows_none (pinb : Nat → Nat) (n row : Nat) (out : List Nat)
    (h : ∀ i, i < n → ∀ j, j < 4 → ¬ active pinb (row + i) j) :
    scanRows pinb n row out =
      (0, out ++ (List.range n).map (fun i => strobe (row + i))) := by
  induction n generalizing row out with
  | zero => simp [scanRows]
  | succ n ih =>
    have hcols : scanCols (pinb (strobe row)) row 4 4 = none := by
      apply scanCols_none
      intro j hj
      have := h 0 (by omega) j hj
      simpa [active, Nat.add_comm] using this
    have hn : ∀ i, i < n → ∀ j, j < 4 → ¬ active pinb (row + 1 + i) j := by
      intro i hi j hj
      have := h (i + 1) (by omega) j hj
      rwa [show row + (i + 1) = row + 1 + i by omega] at this
    rw [scanRows, hcols]
    simp only [ih (row + 1) _ hn, List.range_succ_eq_map, List.map_cons, List.map_map,
      List.append_assoc, List.singleton_append, Nat.add_zero]
    congr 2
    congr 1
    apply List.map_congr_left
    intro i _
    simp [Nat.add_assoc, Nat.add_comm 1 i]

theorem scanRows_found (pinb : Nat → Nat) (n row r c : Nat) (out : List Nat)
    (hr : r < n) (hc : c < 4) (hact : active pinb (row + r) c)
    (hrows : ∀ i, i < r → ∀ j, j < 4 → ¬ active pinb (row + i) j)
    (hcols : ∀ j, j < c → ¬ active pinb (row + r) j) :
    scanRows pinb n row out =
      (keys.getD (keyCode (row + r) (4 + c)) 0,
        out ++ (List.range (r + 1)).map (fun i => strobe (row + i))) := by
  induction n generalizing row r out with
  | zero => omega
  | succ n ih =>
    cases r with
    | zero =>
      have hfound : scanCols (pinb (strobe row)) row 4 4 =
          some (keys.getD (keyCode row (4 + c)) 0) := by
        apply scanCols_found _ _ _ _ c hc
        · simpa [active, Nat.add_comm] using hact
        · intro j hj
          have := hcols j hj
          simpa [active, Nat.add_comm] using this
      rw [scanRows, hfound]
      simp [List.range_succ]
    | succ r =>
      have hnone : scanCols (pinb (strobe row)) row 4 4 = none := by
        apply scanCols_none
        intro j hj
        have := hrows 0 (by omega) j hj
        simpa [active, Nat.add_comm] using this
      have e : row + (r + 1) = row + 1 + r := by omega
      have hrows2 : ∀ i, i < r → ∀ j, j < 4 → ¬ active pinb (row + 1 + i) j := by
        intro i hi j hj
        have := hrows (i + 1) (by omega) j hj
        rwa [show row + (i + 1) = row + 1 + i by omega] at this
      rw [e] at hact hcols
      rw [scanRows, hnone]
      simp only [ih (row + 1) r _ (by omega) hact hrows2 hcols, e]
      rw [List.range_succ_eq_map (r + 1)]
      simp only [List.map_cons, List.map_map, List.append_assoc, List.singleton_append,
        Nat.add_zero]
      congr 2
      congr 1
      apply List.map_congr_left
      intro i _
      simp [Nat.add_assoc, Nat.add_comm 1 i]

theorem keypadScan_first (pinb : Nat → Nat) (r c : Nat) (hr : r < 4) (hc : c < 4)
    (hact : active pinb r c)
    (hmin : ∀ r' c', r' < 4 → c' < 4 → active pinb r' c' → r * 4 + c ≤ r' * 4 + c') :
    keypadScan pinb = (keys.getD (r * 4 + c) 0, (List.range (r + 1)).map strobe) := by
  have hrows : ∀ i, i < r → ∀ j, j < 4 → ¬ active pinb (0 + i) j := by
    intro i hi j hj ha
    rw [Nat.zero_add] at ha
    have := hmin i j (by omega) hj ha
    omega
  have hcols : ∀ j, j < c → ¬ active pinb (0 + r) j := by
    intro j hj ha
    rw [Nat.zero_add] at ha
    have := hmin r j hr (by omega) ha
    omega
  have hact0 : active pinb (0 + r) c := by rwa [Nat.zero_add]
  have h := scanRows_found pinb 4 0 r c [] hr hc hact0 hrows hcols
  have hcode : keyCode (0 + r) (4 + c) = r * 4 + c := by
    unfold keyCode
    omega
  rw [keypadScan, h, hcode]
  simp

theorem keys_getD (i : Nat) (hi : i < 16) : keys[i]? = some (keys.getD i 0) := by
  have hlen : i < keys.length := by
    have : keys.length = 17 := by decide
    omega
  simp [List.getD, List.getElem?_eq_getElem hlen]

theorem first_active_exists (pinb : Nat → Nat)
    (hany : ∃ r c, r < 4 ∧ c < 4 ∧ active pinb r c) :
    ∃ r c, r < 4 ∧ c < 4 ∧ active pinb r c ∧
      ∀ r' c', r' < 4 → c' < 4 → active pinb r' c' → r * 4 + c ≤ r' * 4 + c' := by
  have hex : ∃ n, n < 16 ∧ active pinb (n / 4) (n % 4) := by
    obtain ⟨r, c, hr, hc, ha⟩ := hany
    refine ⟨r * 4 + c, by omega, ?_⟩
    have h1 : (r * 4 + c) / 4 = r := by omega
    have h2 : (r * 4 + c) % 4 = c := by omega
    rwa [h1, h2]
  classical
  refine ⟨Nat.find hex / 4, Nat.find hex % 4, ?_, ?_, (Nat.find_spec hex).2, ?_⟩
  · have := (Nat.find_spec hex).1
    omega
  · exact Nat.mod_lt _ (by norm_num)
  · intro r' c' hr' hc' ha'
    have h1 : (r' * 4 + c') / 4 = r' := by omega
    have h2 : (r' * 4 + c') % 4 = c' := by omega
    have hle : Nat.find hex ≤ r' * 4 + c' :=
      Nat.find_min' hex ⟨by omega, by rwa [h1, h2]⟩
    omega

/-! ## Runs of keys and the other bits of `PORTC` -/

theorem set_after_prefix (pre : List Nat) (n k : Nat) :
    (pre ++ List.replicate (n + 1) 0).set pre.length k = (pre ++ [k]) ++ List.replicate n 0 := by
  rw [List.set_append_right _ _ (Nat.le_refl _)]
  simp [List.replicate_succ]

theorem processKeys_entries (img : Image) (ks pre : List Nat) (s : State) (hpre : pre.length ≤ 4)
    (hks : ∀ k ∈ ks, k ≠ 0 ∧ k ≠ Char.toNat 'A' ∧ k ≠ Char.toNat 'C' ∧ k ≠ Char.toNat 'D')
    (hpos : s.position = pre.length + 1)
    (hbuf : s.inputCode = pre ++ List.replicate (5 - pre.length) 0) :
    ∃ s', processKeys img ks s = some s' ∧
      s'.position = ((pre ++ ks).take 4).length + 1 ∧
      s'.inputCode = (pre ++ ks).take 4 ++ List.replicate (5 - ((pre ++ ks).take 4).length) 0 ∧
      s'.PORTC = s.PORTC := by
  induction ks generalizing pre s with
  | nil =>
    have htake : (pre ++ []).take 4 = pre := by
      rw [List.append_nil]
      exact List.take_of_length_le hpre
    exact ⟨s, rfl, by rw [htake, hpos], by rw [htake, hbuf], rfl⟩
  | cons k ks ih =>
    obtain ⟨hk0, hkA, hkC, hkD⟩ := hks k (by simp)
    have hrest : ∀ k' ∈ ks, k' ≠ 0 ∧ k' ≠ Char.toNat 'A' ∧ k' ≠ Char.toNat 'C' ∧
        k' ≠ Char.toNat 'D' := fun k' hk' => hks k' (by simp [hk'])
    by_cases hfull : pre.length = 4
    · have hstep : processKey img k s = some s :=
        processKey_full img k s hk0 hkA hkC hkD (by omega)
      obtain ⟨s', hrun, h1, h2, h3⟩ := ih pre s hpre hrest hpos hbuf
      have e1 : (pre ++ k :: ks).take 4 = pre := by
        rw [List.take_append_of_le_length (by omega)]
        exact List.take_of_length_le hpre
      have e2 : (pre ++ ks).take 4 = pre := by
        rw [List.take_append_of_le_length (by omega)]
        exact List.take_of_length_le hpre
      refine ⟨s', by simp [processKeys, hstep, hrun], ?_, ?_, h3⟩
      · rw [e1, ← e2]
        exact h1
      · rw [e1]
        rw [e2] at h2
        exact h2
    · have hlt : pre.length < 4 := by omega
      have hlen : s.inputCode.length = 5 := by
        rw [hbuf]
        simp
        omega
      have hstep := processKey_entry img k s hk0 (Or.inl hkA) hkC hkD hlen (by omega) (by omega)
      have hcell : s.inputCode.set (s.position - 1) k =
          (pre ++ [k]) ++ List.replicate (5 - (pre ++ [k]).length) 0 := by
        have e : s.position - 1 = pre.length := by omega
        have e5 : 5 - pre.length = (5 - (pre ++ [k]).length) + 1 := by
          simp
          omega
        rw [hbuf, e, e5, set_after_prefix]
      generalize hs1 : afterWrites
        (commandWrites ((0xC0 + s.position - 1) % 256) ++ dataWrites (k % 256))
        { s with position := (s.position + 1) % 256,
                 inputCode := s.inputCode.set (s.position - 1) k } = s1 at hstep
      have p1 : s1.position = (pre ++ [k]).length + 1 := by
        rw [← hs1]
        simp [afterWrites, hpos]
        omega
      have p2 : s1.inputCode = (pre ++ [k]) ++ List.replicate (5 - (pre ++ [k]).length) 0 := by
        rw [← hs1]
        simp only [afterWrites]
        exact hcell
      have p3 : s1.PORTC = s.PORTC := by
        rw [← hs1]
        simp [afterWrites]
      obtain ⟨s', hrun, h1, h2, h3⟩ := ih (pre ++ [k]) s1 (by simp; omega) hrest p1 p2
      have e : pre ++ [k] ++ ks = pre ++ k :: ks := by simp
      rw [e] at h1 h2
      exact ⟨s', by simp [processKeys, hstep, hrun], h1, h2, h3.trans p3⟩

theorem testBit_other_set (x i : Nat) (hx : x < 256) (hi : i ≠ PC0) :
    ((x ||| (1 <<< PC0)) % 256).testBit i = x.testBit i := by
  have h : (256 : Nat) = 2 ^ 8 := by norm_num
  have h1 : (1 <<< PC0 : Nat) = 2 ^ 0 := by decide
  have hne : (0 : Nat) ≠ i := fun e => hi (by simp [PC0, ← e])
  rw [h, Nat.testBit_mod_two_pow, Nat.testBit_or, h1, Nat.testBit_two_pow_of_ne hne]
  by_cases h8 : i < 8
  · simp [h8]
  · have hfalse : x.testBit i = false :=
      Nat.testBit_lt_two_pow (lt_of_lt_of_le hx (by
        rw [h]
        exact Nat.pow_le_pow_right (by norm_num) (by omega)))
    simp [h8, hfalse]

theorem testBit_other_clear (x i : Nat) (hx : x < 256) (hi : i ≠ PC0) :
    ((x &&& not8 (1 <<< PC0)) % 256).testBit i = x.testBit i := by
  have h : (256 : Nat) = 2 ^ 8 := by norm_num
  have h2 : not8 (1 <<< PC0) = 254 := by decide
  have hne : i ≠ 0 := fun e => hi (by simp [PC0, e])
  rw [h, Nat.testBit_mod_two_pow, Nat.testBit_and, h2]
  by_cases h8 : i < 8
  · have h254 : (254 : Nat).testBit i = true := by
      interval_cases i <;> first | exact absurd rfl hne | decide
    simp [h8, h254]
  · have hfalse : x.testBit i = false :=
      Nat.testBit_lt_two_pow (lt_of_lt_of_le hx (by
        rw [h]
        exact Nat.pow_le_pow_right (by norm_num) (by omega)))
    simp [h8, hfalse]

theorem processKeys_append (img : Image) (a b : List Nat) (s : State) :
    processKeys img (a ++ b) s = (processKeys img a s).bind (processKeys img b) := by
  induction a generalizing s with
  | nil => simp [processKeys]
  | cons k a ih =>
    cases h : processKey img k s with
    | none => simp [processKeys, h]
    | some s1 => simp [processKeys, h, ih]

theorem processKeys_single (img : Image) (k : Nat) (s : State) : processKeys img [k] s = processKey img k s := by
  cases h : processKey img k s <;> simp [processKeys, h]

/-! ## Pulses, strobes and the buffer invariant -/

set_option maxRecDepth 100000 in
theorem commandWrites_pulses : ∀ b, b < 256 →
    (commandWrites b).map (fun v => v.testBit en) = twoPulses ∧
    (pulses (commandWrites b)).length = 2 ∧
    (pulses (commandWrites b)).getD 0 0 >>> 4 = b >>> 4 ∧
    (pulses (commandWrites b)).getD 1 0 >>> 4 = b % 16 ∧
    ((pulses (commandWrites b)).getD 0 0 &&& 0xF0) |||
      ((pulses (commandWrites b)).getD 1 0 >>> 4) = b ∧
    (pulses (commandWrites b)).map (fun v => (v.testBit rw, v.testBit rs)) =
      [(false, false), (false, false)] := by
  decide

set_option maxRecDepth 100000 in
theorem dataWrites_pulses : ∀ b, b < 256 →
    (dataWrites b).map (fun v => v.testBit en) = twoPulses ∧
    (pulses (dataWrites b)).length = 2 ∧
    (pulses (dataWrites b)).getD 0 0 >>> 4 = b >>> 4 ∧
    (pulses (dataWrites b)).getD 1 0 >>> 4 = b % 16 ∧
    ((pulses (dataWrites b)).getD 0 0 &&& 0xF0) |||
      ((pulses (dataWrites b)).getD 1 0 >>> 4) = b ∧
    (pulses (dataWrites b)).map (fun v => (v.testBit rw, v.testBit rs)) =
      [(false, true), (false, true)] := by
  decide

theorem eq_pair_of_length_two (l : List Nat) (h : l.length = 2) :
    l = [l.getD 0 0, l.getD 1 0] := by
  match l, h with
  | [a, b], _ => rfl

theorem keypadScan_writes (pinb : Nat → Nat) :
    ∃ n, n ≤ 4 ∧ (keypadScan pinb).2 = (List.range n).map strobe := by
  by_cases hany : ∃ r c, r < 4 ∧ c < 4 ∧ active pinb r c
  · obtain ⟨r, c, hr, hc, hact, hmin⟩ := first_active_exists pinb hany
    exact ⟨r + 1, by omega, by rw [keypadScan_first pinb r c hr hc hact hmin]⟩
  · have hnone : ∀ i, i < 4 → ∀ j, j < 4 → ¬ active pinb (0 + i) j := by
      intro i hi j hj ha
      rw [Nat.zero_add] at ha
      exact hany ⟨i, j, hi, hj, ha⟩
    refine ⟨4, Nat.le_refl _, ?_⟩
    rw [keypadScan, scanRows_none pinb 4 0 [] hnone]
    simp

theorem bufferInvariant_afterWrites (w : List Nat) (s : State) :
    bufferInvariant (afterWrites w s) ↔ bufferInvariant s := by
  simp [bufferInvariant, afterWrites]

theorem bufferInvariant_cleared (s : State) :
    bufferInvariant { s with position := 1, inputCode := [0, 0, 0, 0, 0] } := by
  simp [bufferInvariant]

theorem bufferInvariant_entry (k : Nat) (s : State) (hk : k ≠ 0) (h : bufferInvariant s)
    (hp4 : s.position ≤ 4) :
    bufferInvariant { s with position := (s.position + 1) % 256,
                             inputCode := s.inputCode.set (s.position - 1) k } := by
  obtain ⟨p, buf, pc, pd, bus⟩ := s
  obtain ⟨h1, h5, hlen, hpre, hpost⟩ := h
  simp only at h1 h5 hlen hpre hpost hp4
  match buf, hlen with
  | [a, b, c, d, e], _ =>
    interval_cases p <;> simp [bufferInvariant] at hpre hpost ⊢ <;> omega

theorem bufferInvariant_backspace (s : State) (h : bufferInvariant s)
    (hp2 : 2 ≤ s.position) :
    bufferInvariant { s with position := s.position - 1,
                             inputCode := s.inputCode.set (s.position - 2) 0 } := by
  obtain ⟨p, buf, pc, pd, bus⟩ := s
  obtain ⟨h1, h5, hlen, hpre, hpost⟩ := h
  simp only at h1 h5 hlen hpre hpost hp2
  match buf, hlen with
  | [a, b, c, d, e], _ =>
    interval_cases p <;> simp [bufferInvariant] at hpre hpost ⊢ <;> omega

theorem bufferInvariant_step (img : Image) (k : Nat) (s : State) (h : bufferInvariant s) :
    ∃ s', processKey img k s = some s' ∧ bufferInvariant s' := by
  have hp1 := h.1
  have hp5 := h.2.1
  have hlen := h.2.2.1
  by_cases hk0 : k = 0
  · subst hk0
    exact ⟨s, processKey_null img s, h⟩
  by_cases hkD : k = Char.toNat 'D'
  · subst hkD
    rw [processKey_D, submit_eq img s hlen hp1 hp5]
    refine ⟨_, rfl, ?_⟩
    split
    · exact (bufferInvariant_afterWrites _ _).2 (by simp [bufferInvariant])
    · split
      · exact (bufferInvariant_afterWrites _ _).2 (by simp [bufferInvariant])
      · exact (bufferInvariant_afterWrites _ _).2 (by simp [bufferInvariant])
  by_cases hkC : k = Char.toNat 'C'
  · subst hkC
    exact ⟨_, processKey_C img s hlen, (bufferInvariant_afterWrites _ _).2 (by simp [bufferInvariant])⟩
  by_cases hent : (k ≠ Char.toNat 'A' ∨ s.position = 1) ∧ s.position ≤ 4
  · exact ⟨_, processKey_entry img k s hk0 hent.1 hkC hkD hlen hp1 hent.2,
      (bufferInvariant_afterWrites _ _).2 (bufferInvariant_entry k s hk0 h hent.2)⟩
  by_cases hkA : k = Char.toNat 'A'
  · subst hkA
    have hp2 : 2 ≤ s.position := by
      by_contra hc
      exact hent ⟨Or.inr (by omega), by omega⟩
    exact ⟨_, processKey_backspace img s hlen hp2 hp5,
      (bufferInvariant_afterWrites _ _).2 (bufferInvariant_backspace s h hp2)⟩
  · have hp : 4 < s.position := by
      by_contra hc
      exact hent ⟨Or.inl hkA, by omega⟩
    exact ⟨s, processKey_full img k s hk0 hkA hkC hkD hp, h⟩

theorem bufferInvariant_run (img : Image) (ks : List Nat) (s : State) (h : bufferInvariant s) :
    ∃ s', processKeys img ks s = some s' ∧ bufferInvariant s' := by
  induction ks generalizing s with
  | nil => exact ⟨s, rfl, h⟩
  | cons k ks ih =>
    obtain ⟨s1, hs1, h1⟩ := bufferInvariant_step img k s h
    obtain ⟨s2, hs2, h2⟩ := ih s1 h1
    exact ⟨s2, by simp [processKeys, hs1, hs2], h2⟩

theorem set_null_cell (s : State) (h : bufferInvariant s) (hp4 : s.position ≤ 4) (k : Nat) :
    (s.inputCode.set (s.position - 1) k).set (s.position - 1) 0 = s.inputCode := by
  obtain ⟨p, buf, pc, pd, bus⟩ := s
  obtain ⟨h1, h5, hlen, hpre, hpost⟩ := h
  simp only at h1 h5 hlen hpre hpost hp4
  match buf, hlen with
  | [a, b, c, d, e], _ =>
    interval_cases p <;> simp at hpost ⊢ <;> omega

theorem runLoop_eq (img : Image) (pads : List (Nat → Nat)) (s : State) :
    runLoop img pads s = processKeys img (pads.map (fun pad => (keypadScan pad).1)) s := by
  induction pads generalizing s with
  | nil => rfl
  | cons pad pads ih =>
    cases h : processKey img (keypadScan pad).1 s with
    | none => simp [runLoop, processKeys, loopIteration, h]
    | some s1 => simp [runLoop, processKeys, loopIteration, h, ih]

theorem bufferInvariant_count (s : State) (h : bufferInvariant s) :
    s.inputCode.countP (fun c => c ≠ 0) = s.position - 1 := by
  obtain ⟨p, buf, pc, pd, bus⟩ := s
  obtain ⟨h1, h5, hlen, hpre, hpost⟩ := h
  simp only at h1 h5 hlen hpre hpost
  match buf, hlen with
  | [a, b, c, d, e], _ =>
    interval_cases p <;> simp at hpre hpost ⊢ <;> simp [List.countP_cons, hpre, hpost]

/-! ## The branches of the loop body, side by side -/

/-- The shape of one pass of the loop body in a state with cursor in 1..5: which branch
runs, what it writes to the bus and what it leaves in the variables. -/
theorem processKey_shape (img : Image) (k : Nat) (s : State) (hlen : s.inputCode.length = 5)
    (hp1 : 1 ≤ s.position) (hp5 : s.position ≤ 5) :
    (processKey img k s = some s ∧ cellIndices k s = [] ∧ gotoxyCalls k s = [] ∧
      (k = 0 ∨ 4 < s.position)) ∨
    (k ≠ 0 ∧ s.position ≤ 4 ∧
      cellIndices k s = [(s.position : Int) - 1] ∧ gotoxyCalls k s = [(s.position, 2)] ∧
      processKey img k s =
        some (afterWrites
          (commandWrites ((0xC0 + s.position - 1) % 256) ++ dataWrites (k % 256))
          { s with position := (s.position + 1) % 256,
                   inputCode := s.inputCode.set (s.position - 1) k })) ∨
    (2 ≤ s.position ∧
      cellIndices k s = [((s.position - 1 : Nat) : Int) - 1] ∧
      gotoxyCalls k s = [(s.position - 1, 2), (s.position - 1, 2)] ∧
      processKey img k s =
        some (afterWrites
          (commandWrites ((0xC0 + (s.position - 1) - 1) % 256) ++
            (dataWrites (Char.toNat ' ') ++
              commandWrites ((0xC0 + (s.position - 1) - 1) % 256)))
          { s with position := s.position - 1,
                   inputCode := s.inputCode.set (s.position - 2) 0 })) ∨
    (cellIndices k s = [] ∧ gotoxyCalls k s = [(1, 2)] ∧
      processKey img k s =
        some (afterWrites (commandWrites 0xC0 ++ printWrites (textAt img (img.literal 74)))
          { s with position := 1, inputCode := [0, 0, 0, 0, 0] })) ∨
    (cellIndices k s = [(s.position : Int) - 1] ∧ gotoxyCalls k s = [(1, 2), (1, 2)] ∧
      ∃ shown cleared portc, (∀ c ∈ shown, c < 256) ∧ (∀ c ∈ cleared, c < 256) ∧
        processKey img k s =
          some (afterWrites (statusWrites shown cleared)
            { s with position := 1, inputCode := [0, 0, 0, 0, 0], PORTC := portc })) := by
  by_cases hk0 : k = 0
  · subst hk0
    exact Or.inl ⟨processKey_null img s, by simp [cellIndices], by simp [gotoxyCalls], Or.inl rfl⟩
  by_cases hkD : k = Char.toNat 'D'
  · subst hkD
    refine Or.inr (Or.inr (Or.inr (Or.inr ⟨by simp [cellIndices], by simp [gotoxyCalls], ?_⟩)))
    rw [processKey_D, submit_eq img s hlen hp1 hp5]
    by_cases h1 : enteredCode s = chars "1234"
    · exact ⟨textAt img (img.literal 79), textAt img (img.literal 82), _,
        textAt_byte img _, textAt_byte img _, by rw [if_pos h1]⟩
    · by_cases h2 : enteredCode s = chars "4321"
      · exact ⟨textAt img (img.literal 89), textAt img (img.literal 92), _,
          textAt_byte img _, textAt_byte img _, by rw [if_neg h1, if_pos h2]⟩
      · exact ⟨textAt img (img.literal 99), textAt img (img.literal 102), s.PORTC,
          textAt_byte img _, textAt_byte img _, by rw [if_neg h1, if_neg h2]⟩
  by_cases hkC : k = Char.toNat 'C'
  · subst hkC
    exact Or.inr (Or.inr (Or.inr (Or.inl
      ⟨by simp [cellIndices], by simp [gotoxyCalls], processKey_C img s hlen⟩)))
  by_cases hent : (k ≠ Char.toNat 'A' ∨ s.position = 1) ∧ s.position ≤ 4
  · have hA : ¬ (k = Char.toNat 'A' ∧ s.position > 1) := by
      rintro ⟨h1, h2⟩
      rcases hent.1 with h | h
      · exact h h1
      · omega
    refine Or.inr (Or.inl ⟨hk0, hent.2, ?_, ?_,
      processKey_entry img k s hk0 hent.1 hkC hkD hlen hp1 hent.2⟩)
    · simp only [cellIndices, hk0, hA, hkC, hkD, hent.2, ne_eq, not_false_eq_true, if_true,
        if_false]
    · simp only [gotoxyCalls, hk0, hA, hkC, hkD, hent.2, ne_eq, not_false_eq_true, if_true,
        if_false]
  by_cases hkA : k = Char.toNat 'A'
  · subst hkA
    have hp2 : 2 ≤ s.position := by
      by_contra hc
      exact hent ⟨Or.inr (by omega), by omega⟩
    have hgt : s.position > 1 := by omega
    have hdec : (s.position + 255) % 256 = s.position - 1 := by omega
    refine Or.inr (Or.inr (Or.inl ⟨hp2, ?_, ?_, processKey_backspace img s hlen hp2 hp5⟩))
    · simp only [cellIndices, hgt, hdec, ne_eq, and_self, if_true, hk0, not_false_eq_true]
    · simp only [gotoxyCalls, hgt, hdec, ne_eq, and_self, if_true, hk0, not_false_eq_true]
  · have hp : 4 < s.position := by
      by_contra hc
      exact hent ⟨Or.inl hkA, by omega⟩
    have h4 : ¬ s.position ≤ 4 := by omega
    refine Or.inl ⟨processKey_full img k s hk0 hkA hkC hkD hp, ?_, ?_, Or.inr hp⟩
    · simp only [cellIndices, hk0, hkA, hkC, hkD, h4, ne_eq, not_false_eq_true, if_true,
        if_false, false_and]
    · simp only [gotoxyCalls, hk0, hkA, hkC, hkD, h4, ne_eq, not_false_eq_true, if_true,
        if_false, false_and]

theorem lcd_gotoxy_row1 (x : Nat) (s : State) :
    lcd_gotoxy x 1 s = some (afterWrites (commandWrites ((0x80 + x - 1) % 256)) s) := by
  simp [lcd_gotoxy, firstCharAdr, lcd_command_eq]

theorem mainInit_eq (img : Image) (portc portd : Nat) :
    mainInit img portc portd =
      some (afterWrites
        (commandWrites 0x02 ++ (commandWrites 0x28 ++ (commandWrites 0x0E ++
          (commandWrites 0x01 ++ (commandWrites 0x80 ++ printWrites (chars "Enter Code:"))))))
        { position := 1, inputCode := [0, 0, 0, 0, 0],
          PORTC := (portc &&& not8 (1 <<< PC0)) % 256, PORTD := portd, lcdBus := [] }) := by
  simp only [mainInit, lcd_init, lcd_command_eq, lcd_gotoxy_row1, lcd_print_eq,
    textAt_enterCode, afterWrites_afterWrites, Option.bind_eq_bind, Option.some_bind,
    Option.pure_def, List.append_assoc]
  simp [afterWrites]

theorem commands_of_status (shown cleared : List Nat) :
    (cmdByte 0xC0 :: (shown.map dataByte ++ cmdByte 0xC0 :: cleared.map dataByte)).filter
      (fun t => !t.1) = [cmdByte 0xC0, cmdByte 0xC0] := by
  simp [cmdByte, dataByte, List.filter_cons, List.filter_append, List.filter_map,
    Function.comp_def]

/-! ## The index into the key table -/

theorem scanCols_code (pin row n col : Nat) :
    scanCols pin row n col = (scanColsCode pin row n col).map (fun i => keys.getD i 0) := by
  induction n generalizing col with
  | zero => rfl
  | succ n ih =>
    rw [scanCols, scanColsCode]
    split
    · rfl
    · exact ih _

theorem scanColsCode_bound (pin row n col i : Nat) (hrow : row < 4) (hcol : 4 ≤ col)
    (hn : col + n ≤ 8) (h : scanColsCode pin row n col = some i) : i ≤ 15 := by
  induction n generalizing col with
  | zero => simp [scanColsCode] at h
  | succ n ih =>
    rw [scanColsCode] at h
    split at h
    · rw [← Option.some.inj h]
      unfold keyCode
      omega
    · exact ih (col + 1) (by omega) (by omega) h

theorem scanRows_code (pinb : Nat → Nat) (n row : Nat) (out : List Nat) :
    (scanRows pinb n row out).1 =
      ((scanRowsCode pinb n row).map (fun i => keys.getD i 0)).getD 0 := by
  induction n generalizing row out with
  | zero => rfl
  | succ n ih =>
    rw [scanRows, scanRowsCode, scanCols_code]
    cases scanColsCode (pinb (strobe row)) row 4 4 with
    | none => exact ih _ _
    | some code => rfl

theorem scanRowsCode_bound (pinb : Nat → Nat) (n row i : Nat) (hn : row + n ≤ 4)
    (h : scanRowsCode pinb n row = some i) : i ≤ 15 := by
  induction n generalizing row with
  | zero => simp [scanRowsCode] at h
  | succ n ih =>
    rw [scanRowsCode] at h
    cases hc : scanColsCode (pinb (strobe row)) row 4 4 with
    | none =>
      rw [hc] at h
      exact ih (row + 1) (by omega) h
    | some code =>
      rw [hc] at h
      rw [← Option.some.inj h]
      exact scanColsCode_bound _ row 4 4 code (by omega) (Nat.le_refl _) (by norm_num) hc

theorem scanColsCode_index (pin row n col i : Nat)
    (h : scanColsCode pin row n col = some i) :
    ∃ c, col ≤ c ∧ c < col + n ∧ i = keyCode row c := by
  induction n generalizing col with
  | zero => simp [scanColsCode] at h
  | succ n ih =>
    rw [scanColsCode] at h
    split at h
    · exact ⟨col, Nat.le_refl _, by omega, (Option.some.inj h).symm⟩
    · obtain ⟨c, h1, h2, h3⟩ := ih (col + 1) h
      exact ⟨c, by omega, by omega, h3⟩

theorem scanRowsCode_index (pinb : Nat → Nat) (n row i : Nat)
    (h : scanRowsCode pinb n row = some i) :
    ∃ r c, row ≤ r ∧ r < row + n ∧ 4 ≤ c ∧ c < 8 ∧ i = keyCode r c := by
  induction n generalizing row with
  | zero => simp [scanRowsCode] at h
  | succ n ih =>
    rw [scanRowsCode] at h
    cases hc : scanColsCode (pinb (strobe row)) row 4 4 with
    | none =>
      rw [hc] at h
      obtain ⟨r, c, h1, h2, h3⟩ := ih (row + 1) h
      exact ⟨r, c, by omega, by omega, h3⟩
    | some code =>
      rw [hc] at h
      obtain ⟨c, h1, h2, h3⟩ := scanColsCode_index _ _ _ _ _ hc
      exact ⟨row, c, Nat.le_refl _, by omega, h1, h2, by rw [← Option.some.inj h]; exact h3⟩

theorem keypadScan_index (pinb : Nat → Nat) (i : Nat) (h : keypadScanCode pinb = some i) :
    ∃ row col, row < 4 ∧ 4 ≤ col ∧ col < 8 ∧ i = row * 4 + (col - 4) := by
  obtain ⟨r, c, _, h2, h3, h4, h5⟩ := scanRowsCode_index pinb 4 0 i h
  refine ⟨r, c, by omega, h3, h4, ?_⟩
  rw [h5, keyCode]
  omega

theorem keypadScan_code (pinb : Nat → Nat) :
    (∀ i, keypadScanCode pinb = some i → i ≤ 15 ∧ keys[i]? = some (keypadScan pinb).1) ∧
    (keypadScanCode pinb = none → (keypadScan pinb).1 = 0) := by
  have hkey := scanRows_code pinb 4 0 []
  constructor
  · intro i hi
    have hb : i ≤ 15 := scanRowsCode_bound pinb 4 0 i (by norm_num) hi
    rw [keypadScanCode] at hi
    rw [keypadScan, hkey, hi]
    exact ⟨hb, keys_getD i (by omega)⟩
  · intro hnone
    rw [keypadScanCode] at hnone
    rw [keypadScan, hkey, hnone]
    rfl

/-! ## The claims -/

/-- Behind C1: what key 'D' does, in every image. In a state of the main loop with cursor
`p` in 1..5 whose `p - 1` cells before the cursor hold the entered (non-null) characters,
key 'D' is processed and decides on exactly those `p - 1` characters: "1234" sets bit PC0
of PORTC, "4321" clears it, any other code leaves PORTC as it was. As status text the
display receives what program memory holds at the data-memory addresses of the literals
passed to `lcd_print` (lines 79 and 82, 89 and 92, 99 and 102), whatever the literals
say. -/
theorem submit_decides (img : Image) (s : State) (hlen : s.inputCode.length = 5)
    (hp1 : 1 ≤ s.position) (hp5 : s.position ≤ 5)
    (hcells : ∀ c ∈ s.inputCode.take (s.position - 1), c ≠ 0) :
    ∃ s' w, processKey img (Char.toNat 'D') s = some s' ∧ s'.lcdBus = s.lcdBus ++ w ∧
      (s.inputCode.take (s.position - 1) = chars "1234" →
        s'.PORTC.testBit PC0 = true ∧ lcdTransfers w = statusSent img 79 82) ∧
      (s.inputCode.take (s.position - 1) = chars "4321" →
        s'.PORTC.testBit PC0 = false ∧ lcdTransfers w = statusSent img 89 92) ∧
      (s.inputCode.take (s.position - 1) ≠ chars "1234" →
        s.inputCode.take (s.position - 1) ≠ chars "4321" →
        s'.PORTC = s.PORTC ∧ lcdTransfers w = statusSent img 99 102) := by
  have hcode := enteredCode_eq_take s hp1 (by omega) hcells
  have hne : chars "1234" ≠ chars "4321" := by decide
  have hsent : ∀ first second,
      lcdTransfers (statusWrites (textAt img (img.literal first))
        (textAt img (img.literal second))) = statusSent img first second :=
    fun first second => lcdTransfers_status _ _ (textAt_byte img _) (textAt_byte img _)
  rw [processKey_D, submit_eq img s hlen hp1 hp5, hcode]
  by_cases h1 : s.inputCode.take (s.position - 1) = chars "1234"
  · refine ⟨_, statusWrites (textAt img (img.literal 79)) (textAt img (img.literal 82)),
      by rw [if_pos h1], ?_, ?_, ?_, ?_⟩
    · simp [afterWrites]
    · intro _
      exact ⟨by simpa [afterWrites] using testBit_set_PC0 s.PORTC, hsent 79 82⟩
    · intro h2
      exact absurd (h1.symm.trans h2) hne
    · intro h
      exact absurd h1 h
  · by_cases h2 : s.inputCode.take (s.position - 1) = chars "4321"
    · refine ⟨_, statusWrites (textAt img (img.literal 89)) (textAt img (img.literal 92)),
        by rw [if_neg h1, if_pos h2], ?_, ?_, ?_, ?_⟩
      · simp [afterWrites]
      · intro h
        exact absurd h h1
      · intro _
        exact ⟨by simpa [afterWrites] using testBit_clear_PC0 s.PORTC, hsent 89 92⟩
      · intro _ h
        exact absurd h2 h
    · refine ⟨_, statusWrites (textAt img (img.literal 99)) (textAt img (img.literal 102)),
        by rw [if_neg h1, if_neg h2], ?_, ?_, ?_, ?_⟩
      · simp [afterWrites]
      · intro h
        exact absurd h h1
      · intro h
        exact absurd h h2
      · intro _ _
        exact ⟨by simp [afterWrites], hsent 99 102⟩

/-- The decision of key 'D' at a concrete state and image: "1234" entered, cursor 5. -/
theorem submit_decides_witness :
    (sample1234.inputCode.length = 5 ∧ 1 ≤ sample1234.position ∧ sample1234.position ≤ 5 ∧
      ∀ c ∈ sample1234.inputCode.take (sample1234.position - 1), c ≠ 0) ∧
    ∃ s' w, processKey sampleImage (Char.toNat 'D') sample1234 = some s' ∧
      s'.lcdBus = sample1234.lcdBus ++ w ∧
      (sample1234.inputCode.take (sample1234.position - 1) = chars "1234" →
        s'.PORTC.testBit PC0 = true ∧ lcdTransfers w = statusSent sampleImage 79 82) ∧
      (sample1234.inputCode.take (sample1234.position - 1) = chars "4321" →
        s'.PORTC.testBit PC0 = false ∧ lcdTransfers w = statusSent sampleImage 89 92) ∧
      (sample1234.inputCode.take (sample1234.position - 1) ≠ chars "1234" →
        sample1234.inputCode.take (sample1234.position - 1) ≠ chars "4321" →
        s'.PORTC = sample1234.PORTC ∧ lcdTransfers w = statusSent sampleImage 99 102) :=
  ⟨⟨by decide, by decide, by decide, by decide⟩,
    submit_decides sampleImage sample1234 (by decide) (by decide) (by decide) (by decide)⟩

set_option maxRecDepth 100000 in
/-- C1 (the code departs from it). `lcd_print` reads program memory, and the literal
"Code Accepted" of line 79 is in data memory: with "1234" entered, key 'D' sets PC0 as
claimed, but the display receives what program memory holds at the literal's address. In
the sample image that is a zero byte: the display receives the two cursor commands and
no status text at all. -/
theorem status_text_comes_from_flash :
    (processKey sampleImage (Char.toNat 'D') sample1234).map
        (fun s => (s.PORTC, lcdTransfers s.lcdBus)) =
      some (1, [cmdByte 0xC0, cmdByte 0xC0]) ∧
    [cmdByte 0xC0, cmdByte 0xC0] ≠ statusShown "Code Accepted" := by
  decide

/-- C2, as the code has it. For every finite sequence `ks` of non-null keys none of
which is 'A', 'C' or 'D', starting with cursor 1 and an empty buffer (any register
values), processing the keys of `ks` one per loop iteration and then 'D' succeeds and
compares exactly the first min(4, |ks|) keys of `ks` with the two codes: PC0 ends high
when they are "1234", low when they are "4321", and PORTC keeps its prior value otherwise;
in every case the buffer ends all null and the cursor ends at 1. -/
theorem keys_then_submit (img : Image) (ks : List Nat) (portc portd : Nat) (bus : List Nat)
    (hks : ∀ k ∈ ks, k ≠ 0 ∧ k ≠ Char.toNat 'A' ∧ k ≠ Char.toNat 'C' ∧ k ≠ Char.toNat 'D') :
    ∃ s', processKeys img (ks ++ [Char.toNat 'D']) (initState portc portd bus) = some s' ∧
      s'.position = 1 ∧ s'.inputCode = [0, 0, 0, 0, 0] ∧
      (ks.take 4 = chars "1234" → s'.PORTC.testBit PC0 = true) ∧
      (ks.take 4 = chars "4321" → s'.PORTC.testBit PC0 = false) ∧
      (ks.take 4 ≠ chars "1234" → ks.take 4 ≠ chars "4321" → s'.PORTC = portc) := by
  obtain ⟨s1, hrun, hpos, hbuf, hC⟩ :=
    processKeys_entries img ks [] (initState portc portd bus) (by simp) hks rfl rfl
  rw [List.nil_append] at hpos hbuf
  have hle : (ks.take 4).length ≤ 4 := by
    rw [List.length_take]
    exact Nat.min_le_left _ _
  have hlen : s1.inputCode.length = 5 := by
    rw [hbuf, List.length_append, List.length_replicate]
    omega
  have hnz : ∀ c ∈ s1.inputCode.take (s1.position - 1), c ≠ 0 := by
    intro c hc
    rw [hbuf, hpos, Nat.add_sub_cancel, List.take_left'] at hc
    · exact (hks c (List.mem_of_mem_take hc)).1
    · rfl
  have hcode : enteredCode s1 = ks.take 4 := by
    rw [enteredCode_eq_take s1 (by omega) (by omega) hnz, hbuf, hpos, Nat.add_sub_cancel,
      List.take_left']
    rfl
  have hC1 : s1.PORTC = portc := hC
  have hne : chars "1234" ≠ chars "4321" := by decide
  rw [processKeys_append, hrun, Option.some_bind, processKeys_single, processKey_D,
    submit_eq img s1 hlen (by omega) (by omega), hcode]
  by_cases h1 : ks.take 4 = chars "1234"
  · refine ⟨_, by rw [if_pos h1], by simp [afterWrites], by simp [afterWrites], ?_, ?_, ?_⟩
    · intro _
      simpa [afterWrites] using testBit_set_PC0 s1.PORTC
    · intro h2
      exact absurd (h1.symm.trans h2) hne
    · intro h
      exact absurd h1 h
  · by_cases h2 : ks.take 4 = chars "4321"
    · refine ⟨_, by rw [if_neg h1, if_pos h2], by simp [afterWrites], by simp [afterWrites],
        ?_, ?_, ?_⟩
      · intro h
        exact absurd h h1
      · intro _
        simpa [afterWrites] using testBit_clear_PC0 s1.PORTC
      · intro _ h
        exact absurd h2 h
    · refine ⟨_, by rw [if_neg h1, if_neg h2], by simp [afterWrites], by simp [afterWrites],
        ?_, ?_, ?_⟩
      · intro h
        exact absurd h h1
      · intro h
        exact absurd h h2
      · intro _ _
        simpa [afterWrites] using hC1

/-- C2, at the key sequence '1','2','3','4' with PORTC = 0 before. -/
theorem keys_then_submit_witness :
    (∀ k ∈ chars "1234",
      k ≠ 0 ∧ k ≠ Char.toNat 'A' ∧ k ≠ Char.toNat 'C' ∧ k ≠ Char.toNat 'D') ∧
    ∃ s', processKeys sampleImage (chars "1234" ++ [Char.toNat 'D']) (initState 0 0 []) = some s' ∧
      s'.position = 1 ∧ s'.inputCode = [0, 0, 0, 0, 0] ∧
      ((chars "1234").take 4 = chars "1234" → s'.PORTC.testBit PC0 = true) ∧
      ((chars "1234").take 4 = chars "4321" → s'.PORTC.testBit PC0 = false) ∧
      ((chars "1234").take 4 ≠ chars "1234" → (chars "1234").take 4 ≠ chars "4321" →
        s'.PORTC = 0) :=
  ⟨by decide, keys_then_submit sampleImage (chars "1234") 0 0 [] (by decide)⟩

set_option maxRecDepth 100000 in
/-- C2 as stated fails when a null no-key event is among the keys. The sequence
null,'1','2','3','4' holds none of 'A', 'C', 'D'; its first four keys null,'1','2','3'
are neither "1234" nor "4321", so PORTC should keep its prior value 0; the null event is
skipped, "1234" is what gets compared, and PORTC ends at 1 (PC0 high). -/
theorem null_key_is_not_compared :
    (∀ k ∈ 0 :: chars "1234", k ≠ Char.toNat 'A' ∧ k ≠ Char.toNat 'C' ∧ k ≠ Char.toNat 'D') ∧
    (0 :: chars "1234").take 4 ≠ chars "1234" ∧
    (0 :: chars "1234").take 4 ≠ chars "4321" ∧
    (initState 0 0 []).PORTC = 0 ∧
    (processKeys sampleImage ((0 :: chars "1234") ++ [Char.toNat 'D']) (initState 0 0 [])).map
      (fun s => (s.position, s.inputCode, s.PORTC)) = some (1, [0, 0, 0, 0, 0], 1) := by
  decide

set_option maxRecDepth 100000 in
/-- The three scenarios named with C2: '1','2','3','4','D' ends with PC0 high;
'4','3','2','1','D' ends with PC0 low (PORTC was 1); '1','1','1','1','D' leaves PORTC as
it was (1). -/
theorem submit_scenarios :
    (processKeys sampleImage (chars "1234D") (initState 0 0 [])).map
      (fun s => (s.position, s.inputCode, s.PORTC)) = some (1, [0, 0, 0, 0, 0], 1) ∧
    (processKeys sampleImage (chars "4321D") (initState 1 0 [])).map
      (fun s => (s.position, s.inputCode, s.PORTC)) = some (1, [0, 0, 0, 0, 0], 0) ∧
    (processKeys sampleImage (chars "1111D") (initState 1 0 [])).map
      (fun s => (s.position, s.inputCode, s.PORTC)) = some (1, [0, 0, 0, 0, 0], 1) := by
  decide

/-- C3 (the code departs from it). With the cursor at 1 the guard `position > 1` of the
backspace branch fails, the key falls through to the character-entry branch, and 'A' is
stored in cell 0 and the cursor moves to 2. -/
theorem backspace_at_start_enters_A :
    (processKey sampleImage (Char.toNat 'A') (initState 0 0 [])).map
        (fun s => (s.position, s.inputCode, lcdTransfers s.lcdBus)) =
      some (2, [Char.toNat 'A', 0, 0, 0, 0], [cmdByte 0xC0, dataByte (Char.toNat 'A')]) := by
  decide

/-- C4. In every state with cursor in 1..5 (and any content in the five buffer cells),
key 'D' is processed and leaves the cursor at 1 and all five buffer cells null. -/
theorem submit_resets (img : Image) (s : State) (hlen : s.inputCode.length = 5)
    (hp1 : 1 ≤ s.position) (hp5 : s.position ≤ 5) :
    ∃ s', processKey img (Char.toNat 'D') s = some s' ∧
      s'.position = 1 ∧ s'.inputCode = [0, 0, 0, 0, 0] := by
  rw [processKey_D, submit_eq img s hlen hp1 hp5]
  refine ⟨_, rfl, ?_, ?_⟩
  · split
    · simp [afterWrites]
    · split <;> simp [afterWrites]
  · split
    · simp [afterWrites]
    · split <;> simp [afterWrites]

/-- C4, at a concrete state: "12" entered, cursor 3. -/
theorem submit_resets_witness :
    (sample12.inputCode.length = 5 ∧ 1 ≤ sample12.position ∧ sample12.position ≤ 5) ∧
    ∃ s', processKey sampleImage (Char.toNat 'D') sample12 = some s' ∧
      s'.position = 1 ∧ s'.inputCode = [0, 0, 0, 0, 0] :=
  ⟨⟨by decide, by decide, by decide⟩, submit_resets sampleImage sample12 (by decide) (by decide) (by decide)⟩

/-- C5. In every state (any cursor, any content of the five buffer cells, any value of
PORTC), key 'C' is processed and leaves the cursor at 1 and all five buffer cells null. -/
theorem clear_resets (img : Image) (s : State) (hlen : s.inputCode.length = 5) :
    ∃ s', processKey img (Char.toNat 'C') s = some s' ∧
      s'.position = 1 ∧ s'.inputCode = [0, 0, 0, 0, 0] := by
  rw [processKey_C img s hlen]
  exact ⟨_, rfl, by simp [afterWrites], by simp [afterWrites]⟩

/-- C5, at a concrete state: "1234" entered, cursor 5. -/
theorem clear_resets_witness :
    sample1234.inputCode.length = 5 ∧
    ∃ s', processKey sampleImage (Char.toNat 'C') sample1234 = some s' ∧
      s'.position = 1 ∧ s'.inputCode = [0, 0, 0, 0, 0] :=
  ⟨by decide, clear_resets sampleImage sample1234 (by decide)⟩

/-- C6. With the cursor at 5, a non-null key other than 'A', 'C' and 'D' is processed and
changes nothing: buffer, cursor, PORTC, PORTD and the record of writes to the LCD port are
all as before. -/
theorem full_buffer_drops_key (img : Image) (k : Nat) (s : State) (hk0 : k ≠ 0)
    (hkA : k ≠ Char.toNat 'A') (hkC : k ≠ Char.toNat 'C') (hkD : k ≠ Char.toNat 'D')
    (hp : s.position = 5) :
    processKey img k s = some s :=
  processKey_full img k s hk0 hkA hkC hkD (by omega)

/-- C6, at a concrete state: "1234" entered, key '5'. -/
theorem full_buffer_drops_key_witness :
    (Char.toNat '5' ≠ 0 ∧ Char.toNat '5' ≠ Char.toNat 'A' ∧ Char.toNat '5' ≠ Char.toNat 'C' ∧
      Char.toNat '5' ≠ Char.toNat 'D' ∧ sample1234.position = 5) ∧
    processKey sampleImage (Char.toNat '5') sample1234 = some sample1234 :=
  ⟨⟨by decide, by decide, by decide, by decide, by decide⟩,
    full_buffer_drops_key sampleImage (Char.toNat '5') sample1234 (by decide) (by decide) (by decide)
      (by decide) (by decide)⟩

/-- C7. With cursor `p` in 1..4, a non-null key `k` (a byte) other than 'A', 'C' and 'D'
is processed: `k` is stored in cell `p - 1`, no other cell changes, the display receives
the command placing its cursor at (column `p`, row 2) followed by the single data byte
`k`, and the cursor becomes `p + 1`. -/
theorem entry_stores_and_echoes (img : Image) (k : Nat) (s : State) (hk0 : k ≠ 0) (hk : k < 256)
    (hkA : k ≠ Char.toNat 'A') (hkC : k ≠ Char.toNat 'C') (hkD : k ≠ Char.toNat 'D')
    (hlen : s.inputCode.length = 5) (hp1 : 1 ≤ s.position) (hp4 : s.position ≤ 4) :
    ∃ s' w, processKey img k s = some s' ∧
      s'.inputCode[s.position - 1]? = some k ∧
      (∀ i, i ≠ s.position - 1 → s'.inputCode[i]? = s.inputCode[i]?) ∧
      s'.lcdBus = s.lcdBus ++ w ∧
      lcdTransfers w = [cmdByte (0xC0 + (s.position - 1)), dataByte k] ∧
      s'.position = s.position + 1 := by
  rw [processKey_entry img k s hk0 (Or.inl hkA) hkC hkD hlen hp1 hp4]
  have hx : (0xC0 + s.position - 1) % 256 = 0xC0 + (s.position - 1) := by omega
  have hkm : k % 256 = k := Nat.mod_eq_of_lt hk
  have hpm : (s.position + 1) % 256 = s.position + 1 := by omega
  have hd := lcdTransfers_data k hk []
  rw [List.append_nil, lcdTransfers_nil] at hd
  refine ⟨_, commandWrites ((0xC0 + s.position - 1) % 256) ++ dataWrites (k % 256), rfl,
    ?_, ?_, ?_, ?_, ?_⟩
  · have : s.position - 1 < s.inputCode.length := by omega
    simp [afterWrites, this]
  · intro i hi
    simp [afterWrites, List.getElem?_set, Ne.symm hi]
  · simp [afterWrites]
  · rw [hx, hkm, lcdTransfers_command _ (by omega), hd]
  · simp [afterWrites, hpm]

/-- C7, at a concrete state: "12" entered, key '3'. -/
theorem entry_stores_and_echoes_witness :
    (Char.toNat '3' ≠ 0 ∧ Char.toNat '3' < 256 ∧ Char.toNat '3' ≠ Char.toNat 'A' ∧
      Char.toNat '3' ≠ Char.toNat 'C' ∧ Char.toNat '3' ≠ Char.toNat 'D' ∧
      sample12.inputCode.length = 5 ∧ 1 ≤ sample12.position ∧ sample12.position ≤ 4) ∧
    ∃ s' w, processKey sampleImage (Char.toNat '3') sample12 = some s' ∧
      s'.inputCode[sample12.position - 1]? = some (Char.toNat '3') ∧
      (∀ i, i ≠ sample12.position - 1 → s'.inputCode[i]? = sample12.inputCode[i]?) ∧
      s'.lcdBus = sample12.lcdBus ++ w ∧
      lcdTransfers w = [cmdByte (0xC0 + (sample12.position - 1)), dataByte (Char.toNat '3')] ∧
      s'.position = sample12.position + 1 :=
  ⟨⟨by decide, by decide, by decide, by decide, by decide, by decide, by decide, by decide⟩,
    entry_stores_and_echoes sampleImage (Char.toNat '3') sample12 (by decide) (by decide) (by decide)
      (by decide) (by decide) (by decide) (by decide) (by decide)⟩

/-- C8. With the column lines given as a function `pinb` of the value strobed on PORTB:
when no column line reads low for any of the four strobed rows, `keypadScan` returns the
null character; when exactly one intersection (row `r`, column `c`, both in 0..3) is
active, it returns the character at index `r * 4 + c` of the table "123A456B789C*0#D". -/
theorem keypadScan_decodes (pinb : Nat → Nat) :
    ((∀ r c, r < 4 → c < 4 → ¬ active pinb r c) → (keypadScan pinb).1 = 0) ∧
    (∀ r c, r < 4 → c < 4 → active pinb r c →
      (∀ r' c', r' < 4 → c' < 4 → active pinb r' c' → r' = r ∧ c' = c) →
      keys[r * 4 + c]? = some (keypadScan pinb).1) := by
  constructor
  · intro hnone
    have h := scanRows_none pinb 4 0 [] (fun i hi j hj => by
      rw [Nat.zero_add]
      exact hnone i j hi hj)
    rw [keypadScan, h]
  · intro r c hr hc hact honly
    have hmin : ∀ r' c', r' < 4 → c' < 4 → active pinb r' c' → r * 4 + c ≤ r' * 4 + c' := by
      intro r' c' hr' hc' ha'
      obtain ⟨h1, h2⟩ := honly r' c' hr' hc' ha'
      subst h1 h2
      exact Nat.le_refl _
    rw [keypadScan_first pinb r c hr hc hact hmin]
    exact keys_getD _ (by omega)

/-- C8, on two concrete keypads: nothing pressed, and only the key of row 1, column 2
pressed (the character '6'). -/
theorem keypadScan_decodes_witness :
    ((∀ r c, r < 4 → c < 4 → ¬ active padIdle r c) ∧ (keypadScan padIdle).1 = 0) ∧
    ((1 < 4 ∧ 2 < 4 ∧ active padSix 1 2 ∧
        ∀ r' c', r' < 4 → c' < 4 → active padSix r' c' → r' = 1 ∧ c' = 2) ∧
      keys[1 * 4 + 2]? = some (keypadScan padSix).1 ∧ (keypadScan padSix).1 = Char.toNat '6') :=
  have hidle : ∀ r c, r < 4 → c < 4 → ¬ active padIdle r c := by
    intro r c hr hc
    interval_cases r <;> interval_cases c <;> decide
  have hsix : ∀ r' c', r' < 4 → c' < 4 → active padSix r' c' → r' = 1 ∧ c' = 2 := by
    intro r c hr hc
    interval_cases r <;> interval_cases c <;> decide
  ⟨⟨hidle, (keypadScan_decodes padIdle).1 hidle⟩,
    ⟨by decide, by decide, by decide, hsix⟩,
    (keypadScan_decodes padSix).2 1 2 (by decide) (by decide) (by decide) hsix, by decide⟩

/-- C9. Whenever at least one intersection is active, `keypadScan` returns the table
character of the active intersection that comes first in row-major order (lowest row,
then lowest column in that row), and the rows it strobes are exactly rows 0 up to the row
of that intersection: no later row is strobed. -/
theorem keypadScan_priority (pinb : Nat → Nat)
    (hany : ∃ r c, r < 4 ∧ c < 4 ∧ active pinb r c) :
    ∃ r c, r < 4 ∧ c < 4 ∧ active pinb r c ∧
      (∀ r' c', r' < 4 → c' < 4 → active pinb r' c' → r * 4 + c ≤ r' * 4 + c') ∧
      keys[r * 4 + c]? = some (keypadScan pinb).1 ∧
      (keypadScan pinb).2 = (List.range (r + 1)).map strobe := by
  obtain ⟨r, c, hr, hc, hact, hmin⟩ := first_active_exists pinb hany
  refine ⟨r, c, hr, hc, hact, hmin, ?_, ?_⟩
  · rw [keypadScan_first pinb r c hr hc hact hmin]
    exact keys_getD _ (by omega)
  · rw [keypadScan_first pinb r c hr hc hact hmin]

/-- C9, on a concrete keypad with three keys pressed together. -/
theorem keypadScan_priority_witness :
    (∃ r c, r < 4 ∧ c < 4 ∧ active padMany r c) ∧
    ∃ r c, r < 4 ∧ c < 4 ∧ active padMany r c ∧
      (∀ r' c', r' < 4 → c' < 4 → active padMany r' c' → r * 4 + c ≤ r' * 4 + c') ∧
      keys[r * 4 + c]? = some (keypadScan padMany).1 ∧
      (keypadScan padMany).2 = (List.range (r + 1)).map strobe :=
  ⟨⟨1, 2, by decide, by decide, by decide⟩,
    keypadScan_priority padMany ⟨1, 2, by decide, by decide, by decide⟩⟩

/-- C10. In every state with cursor in 1..5 (five buffer cells, PORTC an 8-bit value)
every key, the null no-key event included, is processed, and PORTC differs afterwards
only if the key is 'D' and the entered code is "1234" or "4321"; for every key other
than 'D' PORTC is unchanged; and in all cases every bit of PORTC other than PC0 keeps its
value. -/
theorem portc_frame (img : Image) (k : Nat) (s : State) (hlen : s.inputCode.length = 5)
    (hp1 : 1 ≤ s.position) (hp5 : s.position ≤ 5) (hC : s.PORTC < 256) :
    ∃ s', processKey img k s = some s' ∧
      (s'.PORTC ≠ s.PORTC →
        k = Char.toNat 'D' ∧ (enteredCode s = chars "1234" ∨ enteredCode s = chars "4321")) ∧
      (k ≠ Char.toNat 'D' → s'.PORTC = s.PORTC) ∧
      (∀ i, i ≠ PC0 → s'.PORTC.testBit i = s.PORTC.testBit i) := by
  have same : ∀ s' : State, processKey img k s = some s' → s'.PORTC = s.PORTC →
      ∃ s', processKey img k s = some s' ∧
        (s'.PORTC ≠ s.PORTC →
          k = Char.toNat 'D' ∧
            (enteredCode s = chars "1234" ∨ enteredCode s = chars "4321")) ∧
        (k ≠ Char.toNat 'D' → s'.PORTC = s.PORTC) ∧
        (∀ i, i ≠ PC0 → s'.PORTC.testBit i = s.PORTC.testBit i) :=
    fun s' h e => ⟨s', h, fun hne => absurd e hne, fun _ => e, fun _ _ => by rw [e]⟩
  by_cases hk0 : k = 0
  · subst hk0
    exact same s (processKey_null img s) rfl
  by_cases hkD : k = Char.toNat 'D'
  · subst hkD
    rw [processKey_D, submit_eq img s hlen hp1 hp5]
    by_cases h1 : enteredCode s = chars "1234"
    · refine ⟨_, by rw [if_pos h1], fun _ => ⟨rfl, Or.inl h1⟩, fun h => absurd rfl h, ?_⟩
      intro i hi
      simpa [afterWrites] using testBit_other_set s.PORTC i hC hi
    · by_cases h2 : enteredCode s = chars "4321"
      · refine ⟨_, by rw [if_neg h1, if_pos h2], fun _ => ⟨rfl, Or.inr h2⟩,
          fun h => absurd rfl h, ?_⟩
        intro i hi
        simpa [afterWrites] using testBit_other_clear s.PORTC i hC hi
      · refine ⟨_, by rw [if_neg h1, if_neg h2], ?_, fun h => absurd rfl h, ?_⟩
        · intro hne
          exact absurd (by simp [afterWrites]) hne
        · intro i _
          simp [afterWrites]
  by_cases hkC : k = Char.toNat 'C'
  · subst hkC
    exact same _ (processKey_C img s hlen) (by simp [afterWrites])
  by_cases hkA : k = Char.toNat 'A'
  · subst hkA
    by_cases hp : s.position = 1
    · exact same _ (processKey_entry img _ s hk0 (Or.inr hp) hkC hkD hlen hp1 (by omega))
        (by simp [afterWrites])
    · exact same _ (processKey_backspace img s hlen (by omega) hp5) (by simp [afterWrites])
  by_cases hp4 : s.position ≤ 4
  · exact same _ (processKey_entry img k s hk0 (Or.inl hkA) hkC hkD hlen hp1 hp4)
      (by simp [afterWrites])
  · exact same s (processKey_full img k s hk0 hkA hkC hkD (by omega)) rfl

/-- C10, at a concrete state and key: "12" entered, key 'A'. -/
theorem portc_frame_witness :
    (sample12.inputCode.length = 5 ∧ 1 ≤ sample12.position ∧ sample12.position ≤ 5 ∧
      sample12.PORTC < 256) ∧
    ∃ s', processKey sampleImage (Char.toNat 'A') sample12 = some s' ∧
      (s'.PORTC ≠ sample12.PORTC →
        Char.toNat 'A' = Char.toNat 'D' ∧
          (enteredCode sample12 = chars "1234" ∨ enteredCode sample12 = chars "4321")) ∧
      (Char.toNat 'A' ≠ Char.toNat 'D' → s'.PORTC = sample12.PORTC) ∧
      (∀ i, i ≠ PC0 → s'.PORTC.testBit i = sample12.PORTC.testBit i) :=
  ⟨⟨by decide, by decide, by decide, by decide⟩,
    portc_frame sampleImage (Char.toNat 'A') sample12 (by decide) (by decide) (by decide) (by decide)⟩

/-- C11. For every row `y` in 1..4 and column `x` in 1..20, `lcd_gotoxy x y` succeeds and
sends exactly one byte to the display, a command, equal to `base + (x - 1)` where `base`
is entry `y - 1` of the table {0x80, 0xC0, 0x94, 0xD4}; the sum stays below 256, so the
truncation to `unsigned char` leaves it as it is. -/
theorem lcd_gotoxy_address (x y : Nat) (s : State)
    (hy1 : 1 ≤ y) (hy4 : y ≤ 4) (hx1 : 1 ≤ x) (hx20 : x ≤ 20) :
    ∃ base s' w, [0x80, 0xC0, 0x94, 0xD4][y - 1]? = some base ∧
      lcd_gotoxy x y s = some s' ∧ s'.lcdBus = s.lcdBus ++ w ∧
      lcdTransfers w = [cmdByte (base + (x - 1))] ∧ base + (x - 1) < 256 := by
  have key : ∀ base, firstCharAdr[y - 1]? = some base → base ≤ 0xD4 →
      ∃ base s' w, [0x80, 0xC0, 0x94, 0xD4][y - 1]? = some base ∧
        lcd_gotoxy x y s = some s' ∧ s'.lcdBus = s.lcdBus ++ w ∧
        lcdTransfers w = [cmdByte (base + (x - 1))] ∧ base + (x - 1) < 256 := by
    intro base hbase hle
    have hy0 : y ≠ 0 := by omega
    have hnw : (base + x - 1) % 256 = base + (x - 1) := by omega
    have ht := lcdTransfers_command (base + (x - 1)) (by omega) []
    rw [List.append_nil, lcdTransfers_nil] at ht
    refine ⟨base, afterWrites (commandWrites (base + (x - 1))) s, commandWrites (base + (x - 1)),
      hbase, ?_, ?_, ht, by omega⟩
    · simp only [lcd_gotoxy, hy0, if_false, hbase, hnw, lcd_command_eq]
    · simp [afterWrites]
  interval_cases y
  · exact key 0x80 rfl (by norm_num)
  · exact key 0xC0 rfl (by norm_num)
  · exact key 0x94 rfl (by norm_num)
  · exact key 0xD4 rfl (by norm_num)

/-- C11, at column 3 of row 2. -/
theorem lcd_gotoxy_address_witness :
    (1 ≤ 2 ∧ 2 ≤ 4 ∧ 1 ≤ 3 ∧ 3 ≤ 20) ∧
    ∃ base s' w, [0x80, 0xC0, 0x94, 0xD4][2 - 1]? = some base ∧
      lcd_gotoxy 3 2 sample12 = some s' ∧ s'.lcdBus = sample12.lcdBus ++ w ∧
      lcdTransfers w = [cmdByte (base + (3 - 1))] ∧ base + (3 - 1) < 256 :=
  ⟨⟨by decide, by decide, by decide, by decide⟩,
    lcd_gotoxy_address 3 2 sample12 (by decide) (by decide) (by decide) (by decide)⟩

/-- C12, as the code has it. `lcd_gotoxy` checks no range: the call is defined exactly for
the rows 1..4, and for every row `y` outside 1..4 the table index `y - 1` is -1 (`y = 0`)
or at least the table length 4, so the read `firstCharAdr[y - 1]` falls outside the table
(`none`: undefined behaviour, no command defined, no clamping to a row in range). -/
theorem lcd_gotoxy_out_of_table (x y : Nat) (s : State) :
    (lcd_gotoxy x y s = none ↔ (y = 0 ∨ 4 < y)) ∧
    ((y = 0 ∨ 4 < y) ↔ (y = 0 ∨ firstCharAdr.length ≤ y - 1)) := by
  have hl : firstCharAdr.length = 4 := rfl
  constructor
  · constructor
    · intro h
      by_contra hc
      have h1 : y ≠ 0 := by omega
      have h2 : y - 1 < firstCharAdr.length := by omega
      simp [lcd_gotoxy, h1, List.getElem?_eq_getElem h2] at h
    · rintro (h | h)
      · simp [lcd_gotoxy, h]
      · have h2 : firstCharAdr.length ≤ y - 1 := by omega
        simp [lcd_gotoxy, List.getElem?_eq_none h2]
  · rw [hl]
    omega

/-- C12 as stated fails: for row 5 the index 5 - 1 = 4 is past the last entry of the
four-entry table, and for row 0 it is -1; in both calls the table is read outside its
bounds. -/
theorem lcd_gotoxy_reads_outside :
    firstCharAdr.length = 4 ∧
    lcd_gotoxy 1 5 (initState 0 0 []) = none ∧ firstCharAdr[5 - 1]? = none ∧
    lcd_gotoxy 1 0 (initState 0 0 []) = none := by
  decide

/-- C13. For every byte `b`, `lcd_command b` and `lcd_data b` each make ten writes to
PORTD over which `en` is raised exactly twice, from low to high and back to low each
time; while `en` is high the upper four bits of PORTD are the high nibble of `b` the first
time and the low nibble of `b` the second time, so that
`(first & 0xF0) | (second >> 4) = b`; in both pulses `rw` is 0, and `rs` is 0 for
`lcd_command` and 1 for `lcd_data`. -/
theorem nibble_pair_transfer (b : Nat) (hb : b < 256) (s : State) :
    (∃ w first second, (lcd_command b s).lcdBus = s.lcdBus ++ w ∧
      w.map (fun v => v.testBit en) = twoPulses ∧ pulses w = [first, second] ∧
      first >>> 4 = b >>> 4 ∧ second >>> 4 = b % 16 ∧
      (first &&& 0xF0) ||| (second >>> 4) = b ∧
      first.testBit rw = false ∧ second.testBit rw = false ∧
      first.testBit rs = false ∧ second.testBit rs = false) ∧
    (∃ w first second, (lcd_data b s).lcdBus = s.lcdBus ++ w ∧
      w.map (fun v => v.testBit en) = twoPulses ∧ pulses w = [first, second] ∧
      first >>> 4 = b >>> 4 ∧ second >>> 4 = b % 16 ∧
      (first &&& 0xF0) ||| (second >>> 4) = b ∧
      first.testBit rw = false ∧ second.testBit rw = false ∧
      first.testBit rs = true ∧ second.testBit rs = true) := by
  constructor
  · obtain ⟨h1, h2, h3, h4, h5, h6⟩ := commandWrites_pulses b hb
    have hl := eq_pair_of_length_two _ h2
    rw [hl] at h6
    simp only [List.map_cons, List.map_nil, List.cons.injEq, Prod.mk.injEq, and_true] at h6
    exact ⟨commandWrites b, _, _, by rw [lcd_command_eq]; simp [afterWrites], h1, hl, h3, h4, h5,
      h6.1.1, h6.2.1, h6.1.2, h6.2.2⟩
  · obtain ⟨h1, h2, h3, h4, h5, h6⟩ := dataWrites_pulses b hb
    have hl := eq_pair_of_length_two _ h2
    rw [hl] at h6
    simp only [List.map_cons, List.map_nil, List.cons.injEq, Prod.mk.injEq, and_true] at h6
    exact ⟨dataWrites b, _, _, by rw [lcd_data_eq]; simp [afterWrites], h1, hl, h3, h4, h5,
      h6.1.1, h6.2.1, h6.1.2, h6.2.2⟩

/-- C13, at the byte 'K' (0x4B). -/
theorem nibble_pair_transfer_witness :
    Char.toNat 'K' < 256 ∧
    ((∃ w first second, (lcd_command (Char.toNat 'K') sample12).lcdBus = sample12.lcdBus ++ w ∧
      w.map (fun v => v.testBit en) = twoPulses ∧ pulses w = [first, second] ∧
      first >>> 4 = Char.toNat 'K' >>> 4 ∧ second >>> 4 = Char.toNat 'K' % 16 ∧
      (first &&& 0xF0) ||| (second >>> 4) = Char.toNat 'K' ∧
      first.testBit rw = false ∧ second.testBit rw = false ∧
      first.testBit rs = false ∧ second.testBit rs = false) ∧
    (∃ w first second, (lcd_data (Char.toNat 'K') sample12).lcdBus = sample12.lcdBus ++ w ∧
      w.map (fun v => v.testBit en) = twoPulses ∧ pulses w = [first, second] ∧
      first >>> 4 = Char.toNat 'K' >>> 4 ∧ second >>> 4 = Char.toNat 'K' % 16 ∧
      (first &&& 0xF0) ||| (second >>> 4) = Char.toNat 'K' ∧
      first.testBit rw = false ∧ second.testBit rw = false ∧
      first.testBit rs = true ∧ second.testBit rs = true)) :=
  ⟨by decide, nibble_pair_transfer (Char.toNat 'K') (by decide) sample12⟩

/-- C14. With cursor `p` in 2..5, key 'A' is processed: the cursor becomes `p - 1`, cell
`p - 2` is set to null, every other cell and PORTC are unchanged, and the display
receives, in order, the command placing its cursor at (column `p - 1`, row 2), one data
byte ' ', and the same command again. -/
theorem backspace_removes_last (img : Image) (s : State) (hlen : s.inputCode.length = 5)
    (hp2 : 2 ≤ s.position) (hp5 : s.position ≤ 5) :
    ∃ s' w, processKey img (Char.toNat 'A') s = some s' ∧
      s'.position = s.position - 1 ∧
      s'.inputCode[s.position - 2]? = some 0 ∧
      (∀ i, i ≠ s.position - 2 → s'.inputCode[i]? = s.inputCode[i]?) ∧
      s'.PORTC = s.PORTC ∧
      s'.lcdBus = s.lcdBus ++ w ∧
      lcdTransfers w = [cmdByte (0xC0 + (s.position - 2)), dataByte (Char.toNat ' '),
        cmdByte (0xC0 + (s.position - 2))] := by
  rw [processKey_backspace img s hlen hp2 hp5]
  have hx : (0xC0 + (s.position - 1) - 1) % 256 = 0xC0 + (s.position - 2) := by omega
  have hc := lcdTransfers_command (0xC0 + (s.position - 2)) (by omega) []
  rw [List.append_nil, lcdTransfers_nil] at hc
  refine ⟨_, commandWrites ((0xC0 + (s.position - 1) - 1) % 256) ++
      (dataWrites (Char.toNat ' ') ++ commandWrites ((0xC0 + (s.position - 1) - 1) % 256)),
    rfl, ?_, ?_, ?_, ?_, ?_, ?_⟩
  · simp [afterWrites]
  · have : s.position - 2 < s.inputCode.length := by omega
    simp [afterWrites, this]
  · intro i hi
    simp [afterWrites, List.getElem?_set, Ne.symm hi]
  · simp [afterWrites]
  · simp [afterWrites]
  · rw [hx, lcdTransfers_command _ (by omega), lcdTransfers_data _ (by decide), hc]

/-- C14, at a concrete state: "12" entered, cursor 3. -/
theorem backspace_removes_last_witness :
    (sample12.inputCode.length = 5 ∧ 2 ≤ sample12.position ∧ sample12.position ≤ 5) ∧
    ∃ s' w, processKey sampleImage (Char.toNat 'A') sample12 = some s' ∧
      s'.position = sample12.position - 1 ∧
      s'.inputCode[sample12.position - 2]? = some 0 ∧
      (∀ i, i ≠ sample12.position - 2 → s'.inputCode[i]? = sample12.inputCode[i]?) ∧
      s'.PORTC = sample12.PORTC ∧
      s'.lcdBus = sample12.lcdBus ++ w ∧
      lcdTransfers w = [cmdByte (0xC0 + (sample12.position - 2)), dataByte (Char.toNat ' '),
        cmdByte (0xC0 + (sample12.position - 2))] :=
  ⟨⟨by decide, by decide, by decide⟩,
    backspace_removes_last sampleImage sample12 (by decide) (by decide) (by decide)⟩

/-- C15, as the code has it. For every pair of non-null keys `a`, `b` outside
{'A', 'C', 'D'}, starting from cursor 1 with an empty buffer, processing `a`, `b`, 'A'
leaves the one-character code `a` entered, which is neither of the two codes, and 'D'
then submits it and it is rejected: PORTC keeps its prior value, the buffer ends all null
and the cursor at 1. (Nothing is said of the status text: see C1.) -/
theorem backspace_then_submit (img : Image) (a b portc portd : Nat) (bus : List Nat)
    (ha : a ≠ 0 ∧ a ≠ Char.toNat 'A' ∧ a ≠ Char.toNat 'C' ∧ a ≠ Char.toNat 'D')
    (hb : b ≠ 0 ∧ b ≠ Char.toNat 'A' ∧ b ≠ Char.toNat 'C' ∧ b ≠ Char.toNat 'D') :
    ∃ s3 s4, processKeys img [a, b, Char.toNat 'A'] (initState portc portd bus) = some s3 ∧
      enteredCode s3 = [a] ∧
      enteredCode s3 ≠ chars "1234" ∧ enteredCode s3 ≠ chars "4321" ∧
      processKey img (Char.toNat 'D') s3 = some s4 ∧
      s4.PORTC = portc ∧ s4.inputCode = [0, 0, 0, 0, 0] ∧ s4.position = 1 := by
  have hks : ∀ k ∈ [a, b], k ≠ 0 ∧ k ≠ Char.toNat 'A' ∧ k ≠ Char.toNat 'C' ∧
      k ≠ Char.toNat 'D' := by
    intro k hk
    rcases List.mem_cons.1 hk with h | h
    · rw [h]; exact ha
    · rw [List.mem_singleton.1 h]; exact hb
  obtain ⟨s2, hrun, hpos, hbuf, hC⟩ :=
    processKeys_entries img [a, b] [] (initState portc portd bus) (by simp) hks rfl rfl
  have hpos2 : s2.position = 3 := by simpa using hpos
  have hbuf2 : s2.inputCode = [a, b, 0, 0, 0] := by simpa using hbuf
  have hC2 : s2.PORTC = portc := hC
  have hback := processKey_backspace img s2 (by rw [hbuf2]; rfl) (by omega) (by omega)
  generalize hs3 : afterWrites
    (commandWrites ((0xC0 + (s2.position - 1) - 1) % 256) ++
      (dataWrites (Char.toNat ' ') ++ commandWrites ((0xC0 + (s2.position - 1) - 1) % 256)))
    { s2 with position := s2.position - 1,
              inputCode := s2.inputCode.set (s2.position - 2) 0 } = s3 at hback
  have q1 : s3.position = 2 := by
    rw [← hs3]
    simp [afterWrites, hpos2]
  have q2 : s3.inputCode = [a, 0, 0, 0, 0] := by
    rw [← hs3]
    simp [afterWrites, hpos2, hbuf2]
  have q3 : s3.PORTC = portc := by
    rw [← hs3]
    simpa [afterWrites] using hC2
  have hcode : enteredCode s3 = [a] := by
    simp [enteredCode, q1, q2, ha.1]
  have h1 : enteredCode s3 ≠ chars "1234" := by
    rw [hcode]
    intro h
    have := congrArg List.length h
    simp [chars] at this
  have h2 : enteredCode s3 ≠ chars "4321" := by
    rw [hcode]
    intro h
    have := congrArg List.length h
    simp [chars] at this
  have hrun3 : processKeys img [a, b, Char.toNat 'A'] (initState portc portd bus) = some s3 := by
    have e : [a, b, Char.toNat 'A'] = [a, b] ++ [Char.toNat 'A'] := rfl
    rw [e, processKeys_append, hrun, Option.some_bind, processKeys_single, hback]
  have hsub : processKey img (Char.toNat 'D') s3 =
      some (afterWrites
        (statusWrites (textAt img (img.literal 99)) (textAt img (img.literal 102)))
        { s3 with position := 1, inputCode := [0, 0, 0, 0, 0] }) := by
    rw [processKey_D, submit_eq img s3 (by rw [q2]; rfl) (by omega) (by omega), if_neg h1,
      if_neg h2]
  refine ⟨s3, _, hrun3, hcode, h1, h2, hsub, ?_, ?_, ?_⟩
  · simpa [afterWrites] using q3
  · simp [afterWrites]
  · simp [afterWrites]

/-- C15, at the keys '1', '2' with PORTC = 1 before. -/
theorem backspace_then_submit_witness :
    ((Char.toNat '1' ≠ 0 ∧ Char.toNat '1' ≠ Char.toNat 'A' ∧ Char.toNat '1' ≠ Char.toNat 'C' ∧
        Char.toNat '1' ≠ Char.toNat 'D') ∧
      (Char.toNat '2' ≠ 0 ∧ Char.toNat '2' ≠ Char.toNat 'A' ∧ Char.toNat '2' ≠ Char.toNat 'C' ∧
        Char.toNat '2' ≠ Char.toNat 'D')) ∧
    ∃ s3 s4,
      processKeys sampleImage [Char.toNat '1', Char.toNat '2', Char.toNat 'A']
        (initState 1 0 []) = some s3 ∧
      enteredCode s3 = [Char.toNat '1'] ∧
      enteredCode s3 ≠ chars "1234" ∧ enteredCode s3 ≠ chars "4321" ∧
      processKey sampleImage (Char.toNat 'D') s3 = some s4 ∧
      s4.PORTC = 1 ∧ s4.inputCode = [0, 0, 0, 0, 0] ∧ s4.position = 1 :=
  ⟨⟨by decide, by decide⟩,
    backspace_then_submit sampleImage (Char.toNat '1') (Char.toNat '2') 1 0 [] (by decide)
      (by decide)⟩

set_option maxRecDepth 100000 in
/-- C15 as stated fails when the second key is the null no-key event. The keys '1' and
null are both outside {'A', 'C', 'D'}; the null event is skipped, so the backspace
removes '1' rather than the second key, and the code left to submit after '1', null, 'A'
is the empty code, not the one-character code "1". -/
theorem null_key_is_not_removed :
    (∀ k ∈ [Char.toNat '1', 0],
      k ≠ Char.toNat 'A' ∧ k ≠ Char.toNat 'C' ∧ k ≠ Char.toNat 'D') ∧
    (processKeys sampleImage [Char.toNat '1', 0, Char.toNat 'A'] (initState 0 0 [])).map
      (fun s => (s.position, s.inputCode, enteredCode s)) = some (1, [0, 0, 0, 0, 0], []) ∧
    ([] : List Nat) ≠ [Char.toNat '1'] := by
  decide

/-- C16. From the initial state (cursor 1, buffer all null, any register values), after any
finite sequence of loop iterations, each with its own keypad state scanned by
`keypadScan`, the loop has not failed and, at the iteration boundary, the cursor `p` lies
in 1..5, the five cells split into cells 0..p-2 all non-null and cells p-1..4 all null,
and the number of non-null cells is `p - 1`. -/
theorem buffer_invariant_reachable (img : Image) (pads : List (Nat → Nat)) (portc portd : Nat)
    (bus : List Nat) :
    ∃ s, runLoop img pads (initState portc portd bus) = some s ∧
      1 ≤ s.position ∧ s.position ≤ 5 ∧ s.inputCode.length = 5 ∧
      (∀ c ∈ s.inputCode.take (s.position - 1), c ≠ 0) ∧
      (∀ c ∈ s.inputCode.drop (s.position - 1), c = 0) ∧
      s.inputCode.countP (fun c => c ≠ 0) = s.position - 1 := by
  have h0 : bufferInvariant (initState portc portd bus) := by
    simp [bufferInvariant, initState]
  obtain ⟨s, hs, hinv⟩ := bufferInvariant_run img _ _ h0
  exact ⟨s, by rw [runLoop_eq, hs], hinv.1, hinv.2.1, hinv.2.2.1, hinv.2.2.2.1, hinv.2.2.2.2,
    bufferInvariant_count s hinv⟩

/-- C18. For every row index `r` in 0..3 the byte written by `keypadPORT_R = ~(1 << row)`
is 0xFE, 0xFD, 0xFB, 0xF7 respectively: among the row lines PB0..PB3 exactly line `r` is
low, the column bits PB4..PB7 are all 1, and this byte is the one write to PORTB that
`keypadScan` makes for row `r` (its `r`-th write, whenever the scan reaches row `r`). -/
theorem row_strobe (r : Nat) (hr : r < 4) (pinb : Nat → Nat) :
    [0xFE, 0xFD, 0xFB, 0xF7][r]? = some (strobe r) ∧
    (∀ i, i < 4 → ((strobe r).testBit i = false ↔ i = r)) ∧
    (∀ i, 4 ≤ i → i < 8 → (strobe r).testBit i = true) ∧
    (r < (keypadScan pinb).2.length → (keypadScan pinb).2[r]? = some (strobe r)) := by
  have hvals : [0xFE, 0xFD, 0xFB, 0xF7][r]? = some (strobe r) ∧
      (∀ i, i < 4 → ((strobe r).testBit i = false ↔ i = r)) ∧
      (∀ i, 4 ≤ i → i < 8 → (strobe r).testBit i = true) := by
    interval_cases r
    all_goals
      refine ⟨by decide, ?_, ?_⟩
      · intro i hi
        interval_cases i <;> decide
      · intro i h4 h8
        interval_cases i <;> decide
  refine ⟨hvals.1, hvals.2.1, hvals.2.2, ?_⟩
  obtain ⟨n, _, hw⟩ := keypadScan_writes pinb
  rw [hw]
  intro hlt
  have hrn : r < n := by simpa using hlt
  simp [List.getElem?_map, List.getElem?_range hrn]

/-- C18, at row 2 of a scan with no key pressed (all four rows are strobed). -/
theorem row_strobe_witness :
    2 < 4 ∧
    ([0xFE, 0xFD, 0xFB, 0xF7][2]? = some (strobe 2) ∧
      (∀ i, i < 4 → ((strobe 2).testBit i = false ↔ i = 2)) ∧
      (∀ i, 4 ≤ i → i < 8 → (strobe 2).testBit i = true) ∧
      (2 < (keypadScan padIdle).2.length → (keypadScan padIdle).2[2]? = some (strobe 2))) ∧
    2 < (keypadScan padIdle).2.length :=
  ⟨by decide, row_strobe 2 (by decide) padIdle, by decide⟩

/-- C20. In every state satisfying the buffer invariant with cursor `p` in 1..4, for every
non-null key `k` other than 'A', 'C' and 'D', processing `k` and then 'A' succeeds and
gives back the same cursor, the same five buffer cells and the same PORTC. -/
theorem entry_then_backspace (img : Image) (k : Nat) (s : State) (hinv : bufferInvariant s)
    (hp4 : s.position ≤ 4) (hk0 : k ≠ 0) (hkA : k ≠ Char.toNat 'A')
    (hkC : k ≠ Char.toNat 'C') (hkD : k ≠ Char.toNat 'D') :
    ∃ s', processKeys img [k, Char.toNat 'A'] s = some s' ∧
      s'.position = s.position ∧ s'.inputCode = s.inputCode ∧ s'.PORTC = s.PORTC := by
  have hp1 := hinv.1
  have hlen := hinv.2.2.1
  have hstep := processKey_entry img k s hk0 (Or.inl hkA) hkC hkD hlen hp1 hp4
  generalize hs1 : afterWrites
    (commandWrites ((0xC0 + s.position - 1) % 256) ++ dataWrites (k % 256))
    { s with position := (s.position + 1) % 256,
             inputCode := s.inputCode.set (s.position - 1) k } = s1 at hstep
  have p1 : s1.position = s.position + 1 := by
    rw [← hs1]
    simp [afterWrites]
    omega
  have p2 : s1.inputCode = s.inputCode.set (s.position - 1) k := by
    rw [← hs1]
    simp [afterWrites]
  have p3 : s1.PORTC = s.PORTC := by
    rw [← hs1]
    simp [afterWrites]
  have hback := processKey_backspace img s1 (by rw [p2]; simpa using hlen) (by omega) (by omega)
  have hrun : processKeys img [k, Char.toNat 'A'] s = processKey img (Char.toNat 'A') s1 := by
    simp only [processKeys, hstep, Option.some_bind]
    cases processKey img (Char.toNat 'A') s1 <;> rfl
  rw [hrun, hback]
  refine ⟨_, rfl, ?_, ?_, ?_⟩
  · simp [afterWrites, p1]
  · have e : s1.position - 2 = s.position - 1 := by omega
    simp only [afterWrites, e, p2]
    exact set_null_cell s hinv hp4 k
  · simpa [afterWrites] using p3

/-- C20, at a concrete state: "12" entered, key '3'. -/
theorem entry_then_backspace_witness :
    (bufferInvariant sample12 ∧ sample12.position ≤ 4 ∧ Char.toNat '3' ≠ 0 ∧
      Char.toNat '3' ≠ Char.toNat 'A' ∧ Char.toNat '3' ≠ Char.toNat 'C' ∧
      Char.toNat '3' ≠ Char.toNat 'D') ∧
    ∃ s', processKeys sampleImage [Char.toNat '3', Char.toNat 'A'] sample12 = some s' ∧
      s'.position = sample12.position ∧ s'.inputCode = sample12.inputCode ∧
      s'.PORTC = sample12.PORTC :=
  ⟨⟨by decide, by decide, by decide, by decide, by decide, by decide⟩,
    entry_then_backspace sampleImage (Char.toNat '3') sample12 (by decide) (by decide) (by decide)
      (by decide) (by decide) (by decide)⟩

/-- C19. After any finite sequence of loop iterations from the initial state, and for
every key event `k`: the pass of the loop body succeeds (the embedding fails on an access
outside `inputCode` or `firstCharAdr`); every index `position - 1` used on `inputCode`
lies in 0..4; every call of `lcd_gotoxy` passes a row in {1, 2}, hence a table index in
0..3, and a column in 1..4, and these calls account for exactly the commands sent to the
display; and in every scan of the keypad, whatever keypad state `pad` it meets, the index
`keyCode` with which `keypadScan` reads the table `keys` is `row * 4 + (col - 4)` for a
row in 0..3 and a column bit in 4..7, lies in 0..15, and the character the scan returns
is the table entry at that index (when the scan reads no entry it returns the null
character). The start of `main`, with its call `lcd_gotoxy(1, 1)`, succeeds as well. -/
theorem accesses_in_bounds (img : Image) (pads : List (Nat → Nat)) (portc portd : Nat)
    (bus : List Nat) (k : Nat) (pad : Nat → Nat) :
    (∃ s0, mainInit img portc portd = some s0) ∧
    ∃ s, runLoop img pads (initState portc portd bus) = some s ∧
      (∃ s' w, processKey img k s = some s' ∧ s'.lcdBus = s.lcdBus ++ w ∧
        (lcdTransfers w).filter (fun t => !t.1) = (gotoxyCalls k s).map gotoxyCommand) ∧
      (∀ i ∈ cellIndices k s, 0 ≤ i ∧ i ≤ 4) ∧
      (∀ c ∈ gotoxyCalls k s,
        (c.2 = 1 ∨ c.2 = 2) ∧ c.2 - 1 < firstCharAdr.length ∧ 1 ≤ c.1 ∧ c.1 ≤ 4) ∧
      (∀ i, keypadScanCode pad = some i →
        (∃ row col, row < 4 ∧ 4 ≤ col ∧ col < 8 ∧ i = row * 4 + (col - 4)) ∧
        i ≤ 15 ∧ keys[i]? = some (keypadScan pad).1) ∧
      (keypadScanCode pad = none → (keypadScan pad).1 = 0) := by
  refine ⟨⟨_, mainInit_eq img portc portd⟩, ?_⟩
  have h0 : bufferInvariant (initState portc portd bus) := by
    simp [bufferInvariant, initState]
  obtain ⟨s, hs, hinv⟩ := bufferInvariant_run img (pads.map (fun pad => (keypadScan pad).1)) _ h0
  have hp1 := hinv.1
  have hp5 := hinv.2.1
  have hlen := hinv.2.2.1
  have hl4 : firstCharAdr.length = 4 := rfl
  refine ⟨s, by rw [runLoop_eq, hs], ?_, ?_, ?_,
    fun i hi => ⟨keypadScan_index pad i hi, (keypadScan_code pad).1 i hi⟩,
    (keypadScan_code pad).2⟩
  · rcases processKey_shape img k s hlen hp1 hp5 with
      ⟨h, _, hg, _⟩ | ⟨_, hp4, _, hg, h⟩ | ⟨hp2, _, hg, h⟩ | ⟨_, hg, h⟩ |
      ⟨_, hg, shown, cleared, pc, hshown, hcleared, h⟩
    · exact ⟨s, [], h, by simp, by simp [hg, lcdTransfers_nil]⟩
    · refine ⟨_, _, h, rfl, ?_⟩
      have hd := lcdTransfers_data (k % 256) (Nat.mod_lt _ (by norm_num)) []
      rw [List.append_nil, lcdTransfers_nil] at hd
      rw [lcdTransfers_command _ (Nat.mod_lt _ (by norm_num)), hd, hg]
      simp [cmdByte, dataByte, gotoxyCommand, firstCharAdr]
    · refine ⟨_, _, h, rfl, ?_⟩
      have hc := lcdTransfers_command ((0xC0 + (s.position - 1) - 1) % 256)
        (Nat.mod_lt _ (by norm_num)) []
      rw [List.append_nil, lcdTransfers_nil] at hc
      rw [lcdTransfers_command _ (Nat.mod_lt _ (by norm_num)),
        lcdTransfers_data _ (by decide), hc, hg]
      simp [cmdByte, dataByte, gotoxyCommand, firstCharAdr]
    · refine ⟨_, _, h, rfl, ?_⟩
      have hp := lcdTransfers_print (textAt img (img.literal 74)) (textAt_byte img _) []
      rw [List.append_nil, lcdTransfers_nil, List.append_nil] at hp
      rw [lcdTransfers_command _ (by decide), hp, hg]
      simp [cmdByte, dataByte, gotoxyCommand, firstCharAdr, List.filter_cons, List.filter_map,
        Function.comp_def]
    · refine ⟨_, _, h, rfl, ?_⟩
      rw [lcdTransfers_status shown cleared hshown hcleared, commands_of_status, hg]
      decide
  · intro i hi
    rcases processKey_shape img k s hlen hp1 hp5 with
      ⟨_, hc, _, _⟩ | ⟨_, hp4, hc, _, _⟩ | ⟨hp2, hc, _, _⟩ | ⟨hc, _, _⟩ | ⟨hc, _, _⟩
    all_goals
      rw [hc] at hi
      simp at hi
      try omega
  · intro c hc
    rcases processKey_shape img k s hlen hp1 hp5 with
      ⟨_, _, hg, _⟩ | ⟨_, hp4, _, hg, _⟩ | ⟨hp2, _, hg, _⟩ | ⟨_, hg, _⟩ | ⟨_, hg, _⟩
    all_goals
      rw [hg] at hc
      simp at hc
      try (rcases hc with rfl | rfl)
      all_goals (try simp [hl4])
      all_goals (try omega)

set_option maxRecDepth 100000 in
/-- C17 (the code departs from it). The display is modelled as cells written through an
address counter and driven by the bytes read back from the recorded PORTD writes, from
the start of `main` on. The clear branch calls `lcd_print` on the literal "    " of line
74, which is in data memory, and `lcd_print` reads program memory: the four blanks are
sent only if program memory happens to hold them at that address. In the sample image it
holds a zero byte there: after the keys '1' and 'C' the buffer is empty and the cursor is
1, yet column 1 of row 2 (the cell at address 0x40) still shows '1', not a blank. -/
theorem clear_leaves_echo_on_display :
    ((mainInit sampleImage 0 0).bind (runLoop sampleImage [padOne, padC])).map
        (fun s => (s.position, s.inputCode, (display s.lcdBus).cell 0x40)) =
      some (1, [0, 0, 0, 0, 0], Char.toNat '1') ∧
    Char.toNat '1' ≠ Char.toNat ' ' := by
  decide

end KeypadLcd
